import Mathlib

/-!
# Verification of the t-lark template-mode parsing frontend

Shallow embedding of the template-mode frontend of the `t-lark` repository:
`src/lark/grammar.py` (grammar model and template-mode augmentation),
`src/lark/template_mode.py` (template tokenizer, offset metadata, tree
splicing) and `src/lark/parser_frontends.py` (start-symbol verification,
the template terminal matcher, and the template parse entry point).

Python machine integers are modelled as `Int`, Python dicts as
insertion-ordered association lists, Python sets as insertion-ordered
deduplicated lists, and fallible code as `Except PyError`.  Components of
the repository that live outside the embedded files (the lexer proper, the
Earley backend) enter only as explicit function parameters.
-/

set_option autoImplicit false

namespace TLark

/-- Errors raised by the embedded code, tagged with the Python exception
class (`ValueError`, `TypeError`, `ConfigurationError`, `IndexError`). -/
inductive PyError where
  | valueError (msg : String)
  | typeError (msg : String)
  | configurationError (msg : String)
  | indexError (msg : String)
deriving DecidableEq, Repr

/-- Grammar symbols (`Symbol` in `grammar.py`): a `Terminal` or a
`NonTerminal`; equality is by kind and name. -/
inductive Sym where
  | term (name : String)
  | nt (name : String)
deriving DecidableEq, Repr

/-- Embedding of `RuleOptions` (`grammar.py`). -/
structure RuleOptions where
  keepAllTokens : Bool := false
  expand1 : Bool := false
  priority : Option Int := none
  templateSource : Option String := none
deriving DecidableEq, Repr

/-- Embedding of `Rule` (`grammar.py`): `origin` is the name of the
origin `NonTerminal`; identity (`__eq__`/`__hash__`) is by
`(origin, expansion)` only. -/
structure Rule where
  origin : String
  expansion : List Sym
  order : Int := 0
  «alias» : Option String := none
  options : RuleOptions := {}
deriving DecidableEq, Repr

/-- The identity key of a rule: `(origin, expansion)`, exactly the pair
compared by `Rule.__eq__`. -/
def Rule.key (r : Rule) : String × List Sym := (r.origin, r.expansion)

/-- The label a rule produces: `rule.alias or rule.origin.name`
(Python truthiness: an empty-string alias falls back to the origin). -/
def Rule.label (r : Rule) : String :=
  match r.«alias» with
  | some a => if a = "" then r.origin else a
  | none => r.origin

/-- Lexer pattern kinds relevant to template mode
(`PatternPlaceholder`, `PatternTree`, and ordinary text/regexp patterns
collapsed to their source string). -/
inductive Pattern where
  | placeholder (typeName : Option String)
  | tree (label : String)
  | other (src : String)
deriving DecidableEq, Repr

/-- Embedding of `TerminalDef`. -/
structure TerminalDef where
  name : String
  pattern : Pattern
deriving DecidableEq, Repr

/-- The part of `LexerConf` the augmentation step touches: the terminal
list and the name-indexed terminal dict. -/
structure LexState where
  terminals : List TerminalDef
  byName : List (String × TerminalDef)
deriving DecidableEq, Repr

/-- The grammar attributes read by augmentation
(`grammar.uses_pyobj_placeholders`, `grammar.pyobj_type_names`; the
latter maps a typed placeholder terminal name to its type key). -/
structure Grammar where
  usesPyobjPlaceholders : Bool := false
  pyobjTypeNames : List (String × String) := []
deriving DecidableEq, Repr

/-- `add_terminal` inside `augment_grammar_for_template_mode`: reuse an
existing terminal of the same name, otherwise create and register it. -/
def addTerminal (st : LexState) (name : String) (pat : Pattern) : LexState :=
  match List.lookup name st.byName with
  | some _ => st
  | none =>
      let t : TerminalDef := ⟨name, pat⟩
      ⟨st.terminals ++ [t], st.byName ++ [(name, t)]⟩

/-- `sanitize_label`: replace every character outside `[0-9A-Za-z_]` by
`_`, then uppercase (computed on the character list). -/
def sanitize_label (label : String) : String :=
  ⟨label.data.map fun c =>
    (if c.isAlpha ∨ c.isDigit ∨ c = '_' then c else '_').toUpper⟩

/-- The name of the synthesized splice terminal for a label. -/
def treeTermName (label : String) : String :=
  "TREE__" ++ sanitize_label label

/-- One step of the `labels_per_nonterminal` grouping:
`labels_per_nonterminal.setdefault(origin, set()).add(label)`.
The Python set is modelled as an insertion-ordered deduplicated list. -/
def groupAdd (g : List (String × List String)) (o lab : String) :
    List (String × List String) :=
  match g with
  | [] => [(o, [lab])]
  | (k, ls) :: rest =>
      if k = o then (k, if lab ∈ ls then ls else ls ++ [lab]) :: rest
      else (k, ls) :: groupAdd rest o lab

/-- The `labels_per_nonterminal` grouping loop (accumulator style). -/
def groupLabels : List Rule → List (String × List String) →
    List (String × List String)
  | [], g => g
  | r :: rest, g => groupLabels rest (groupAdd g r.origin r.label)

/-- Python dict assignment `m[k] = v` on an association list. -/
def mapInsert (m : List (String × String)) (k v : String) :
    List (String × String) :=
  if (List.lookup k m).isSome then
    m.map fun p => if p.1 = k then (k, v) else p
  else m ++ [(k, v)]

/-- One label of the terminal-synthesis loop: register the splice terminal
and record `tree_terminal_map[label]`. -/
def addLabelTerm (p : LexState × List (String × String)) (label : String) :
    LexState × List (String × String) :=
  (addTerminal p.1 (treeTermName label) (Pattern.tree label),
   mapInsert p.2 label (treeTermName label))

/-- The terminal-synthesis loop over all grouped label sets. -/
def addLabelTerms (p : LexState × List (String × String))
    (groups : List (String × List String)) :
    LexState × List (String × String) :=
  groups.foldl (fun q g => g.2.foldl addLabelTerm q) p

/-- `max(current_orders, default=-1)`: Python `max` with a default. -/
def pymax (l : List Int) (d : Int) : Int :=
  match l with
  | [] => d
  | x :: xs => xs.foldl max x

/-- The inner rule-synthesis loop for one origin: walk its labels, skip a
label whose `(origin, expansion)` key already exists, otherwise append a
unit rule `origin -> splice_terminal(label)` with `expand1 = true` and the
next order value.  Returns the synthesized rules and the grown
`existing_rules` set. -/
def synthLoop (origin : String) (m : List (String × String)) :
    List String → Int → List (String × List Sym) →
    List Rule × List (String × List Sym)
  | [], _, ex => ([], ex)
  | label :: rest, ord, ex =>
      let expansion : List Sym := [Sym.term ((List.lookup label m).getD "")]
      if (origin, expansion) ∈ ex then
        synthLoop origin m rest ord ex
      else
        let r : Rule :=
          { origin := origin, expansion := expansion, order := ord,
            «alias» := none, options := { expand1 := true } }
        let out := synthLoop origin m rest (ord + 1) (ex ++ [(origin, expansion)])
        (r :: out.1, out.2)

/-- The outer rule-synthesis loop over all origins:
`next_order = max(current_orders, default=-1) + 1` is computed from the
untouched input rule list. -/
def synthAll (m : List (String × String)) (rules : List Rule) :
    List (String × List String) → List (String × List Sym) →
    List Rule × List (String × List Sym)
  | [], ex => ([], ex)
  | (origin, labels) :: rest, ex =>
      let currentOrders := (rules.filter fun r => r.origin = origin).map Rule.order
      let out := synthLoop origin m labels (pymax currentOrders (-1) + 1) ex
      let outRest := synthAll m rules rest out.2
      (out.1 ++ outRest.1, outRest.2)

/-- The result of `augment_grammar_for_template_mode`: the updated lexer
state, the extended rule list, and the label-to-terminal map. -/
structure AugmentResult where
  lex : LexState
  rules : List Rule
  map : List (String × String)
deriving DecidableEq, Repr

/-- The placeholder-terminal step of augmentation: when the grammar uses
placeholders, register `PYOBJ` and each typed placeholder terminal. -/
def addPyobjTerminals (st : LexState) (g : Grammar) : LexState :=
  if g.usesPyobjPlaceholders then
    g.pyobjTypeNames.foldl
      (fun s p => addTerminal s p.1 (Pattern.placeholder (some p.2)))
      (addTerminal st "PYOBJ" (Pattern.placeholder none))
  else st

/-- Embedding of `augment_grammar_for_template_mode` (`grammar.py`):
optionally add placeholder terminals, group rules by origin into label
sets, synthesize one splice terminal per label and one unit rule per
`(origin, label)` pair (deduplicated by `(origin, expansion)`), and return
the label-to-terminal map. -/
def augment_grammar_for_template_mode (lexC : LexState) (rules : List Rule)
    (g : Grammar) : AugmentResult :=
  let st0 := addPyobjTerminals lexC g
  let groups := groupLabels rules []
  let stm := addLabelTerms (st0, []) groups
  let newRules := synthAll stm.2 rules groups (rules.map Rule.key)
  ⟨stm.1, rules ++ newRules.1, stm.2⟩

/-! ## Runtime values, tokens and trees (`template_mode.py`) -/

/-- Six-field token position metadata; all fields simultaneously present
or absent in practice, each modelled as an `Option`. -/
structure TokMeta where
  startPos : Option Nat := none
  line : Option Nat := none
  column : Option Nat := none
  endPos : Option Nat := none
  endLine : Option Nat := none
  endColumn : Option Nat := none
deriving DecidableEq, Repr

/-- An opaque Python host object, identified by the name of its runtime
type and an identity number. -/
structure PyObj where
  typeName : String
  ident : Nat := 0
deriving DecidableEq, Repr

mutual
/-- Python runtime values flowing through the template pipeline: `Tree`
nodes (label, children, optional meta), `Token`s (type, carried value,
meta), opaque host objects, and strings.  The children of a tree form a
`PForest` (an inlined list, so that recursion over trees stays
structural). -/
inductive PVal where
  | tree (data : String) (children : PForest) (meta : Option TokMeta)
  | token (ty : String) (value : PVal) (meta : TokMeta)
  | obj (o : PyObj)
  | str (s : String)
inductive PForest where
  | nil
  | cons (head : PVal) (tail : PForest)
end

/-- `isinstance(v, Tree)`. -/
def isTreeVal : PVal → Bool
  | PVal.tree _ _ _ => true
  | _ => false

/-- `type(v).__name__` for the runtime values of the model. -/
def typeNameOf : PVal → String
  | PVal.tree _ _ _ => "Tree"
  | PVal.token _ _ _ => "Token"
  | PVal.obj o => o.typeName
  | PVal.str _ => "str"

/-- `s.startswith(pre)`, computed on the character lists. -/
def strStarts (s pre : String) : Bool :=
  pre.data.isPrefixOf s.data

/-- Number of newline characters in a character list
(`text.count('\n')`). -/
def countNl (s : List Char) : Nat :=
  s.countP (· = '\n')

/-- Index of the last `'\n'` in a character list
(`text.rfind('\n', 0, len)`), if any. -/
def lastNlIdx (s : List Char) : Option Nat :=
  match s.reverse.findIdx? (· = '\n') with
  | some j => some (s.length - 1 - j)
  | none => none

/-- Embedding of `_offset_to_meta` (`template_mode.py`): derive 1-based
line/column metadata for the span `[start, stop)` of `text` by counting
newlines. -/
def _offset_to_meta (text : String) (start stop : Nat) : TokMeta :=
  let cs := text.data
  let line := countNl (cs.take start) + 1
  let lineStart :=
    match lastNlIdx (cs.take start) with
    | some i => i + 1
    | none => 0
  let column := start - lineStart + 1
  let linesInSpan := countNl ((cs.take stop).drop start)
  let endColumn :=
    if linesInSpan = 0 then column + (stop - start)
    else
      let lastLineStart :=
        match lastNlIdx (cs.take stop) with
        | some i => i + 1
        | none => 0
      stop - lastLineStart + 1
  { startPos := some start, line := some line, column := some column,
    endPos := some stop, endLine := some (line + linesInSpan),
    endColumn := some endColumn }

/-- Embedding of `SourceInfo` (`template_mode.py`). -/
structure SourceInfo where
  filename : String := ""
  text : String
  segmentSpans : List (Nat × Nat)
  interpolationSpans : List (Nat × Nat)

/-- One interpolation slot of a template (`Interpolation.value`). -/
structure Interp where
  value : PVal

/-- A `string.templatelib.Template`: `N` literal strings interleaved with
`N-1` interpolations, optionally carrying source info. -/
structure Template where
  strings : List String
  interpolations : List Interp
  sourceInfo : Option SourceInfo := none

/-- Embedding of `TemplateContext` (`template_mode.py`): the fields the
tokenizer reads (the lexer configuration enters as a function
parameter). -/
structure TemplateContext where
  treeTerminalMap : List (String × String)
  sourceInfo : Option SourceInfo := none

/-- Metadata for interpolation slot `i`: from the tracked span when source
info is present, otherwise the all-`None` dictionary. -/
def interpMeta (ctx : TemplateContext) (i : Nat) : Except PyError TokMeta :=
  match ctx.sourceInfo with
  | none => .ok {}
  | some info =>
      match info.interpolationSpans.get? i with
      | some p => .ok (_offset_to_meta info.text p.1 p.2)
      | none => .error (.indexError "interpolation_spans")

/-- Token meta for a spliced tree: the tree's own meta when present and
truthy, else the slot meta (`if hasattr(value, 'meta') and value.meta`). -/
def treeTokenMeta (v : PVal) (fallback : TokMeta) : TokMeta :=
  match v with
  | PVal.tree _ _ (some m) => m
  | _ => fallback

/-- The splice-failure message of `tokenize_template`, naming the label. -/
def cannotSpliceMsg (label : String) : String :=
  "Cannot splice Tree('" ++ label ++ "'): grammar does not produce this label"

/-- The loop body of `tokenize_template` over the alternating
strings/interpolations, at segment index `i`.  Literal segments are lexed
by `lexSlice text start stop` (the `BasicLexer` over the filtered
terminals, which lives outside the embedded sources); a tree interpolation
is looked up in the label map (failing with a `ValueError` naming the
label when absent, where Python truthiness also rejects an empty mapped
name); any other interpolation value yields a generic `PYOBJ` token. -/
def tokenizeGo (lexSlice : String → Nat → Nat → Except PyError (List PVal))
    (ctx : TemplateContext) (interps : List Interp) :
    Nat → List String → Except PyError (List PVal)
  | _, [] => .ok []
  | i, s :: rest => do
      let staticToks ←
        if s = "" then pure []
        else
          match ctx.sourceInfo with
          | some info =>
              match info.segmentSpans.get? i with
              | some p => lexSlice info.text p.1 p.2
              | none => Except.error (.indexError "segment_spans")
          | none => lexSlice s 0 s.length
      let interpToks ←
        match interps.get? i with
        | none => pure []
        | some itp => do
            let m ← interpMeta ctx i
            match itp.value with
            | PVal.tree label cs tm =>
                match List.lookup label ctx.treeTerminalMap with
                | none => Except.error (.valueError (cannotSpliceMsg label))
                | some tn =>
                    if tn = "" then
                      Except.error (.valueError (cannotSpliceMsg label))
                    else
                      pure [PVal.token tn (PVal.tree label cs tm)
                              (treeTokenMeta (PVal.tree label cs tm) m)]
            | v => pure [PVal.token "PYOBJ" v m]
      let restToks ← tokenizeGo lexSlice ctx interps (i + 1) rest
      pure (staticToks ++ interpToks ++ restToks)

/-- Embedding of `tokenize_template` (`template_mode.py`), with the token
stream produced eagerly as a list. -/
def tokenize_template (lexSlice : String → Nat → Nat → Except PyError (List PVal))
    (tpl : Template) (ctx : TemplateContext) : Except PyError (List PVal) :=
  tokenizeGo lexSlice ctx tpl.interpolations 0 tpl.strings

/-- Is this child a splice token: `isinstance(child, Token) and
child.type.startswith("TREE__") and isinstance(child.value, Tree)`. -/
def isSpliceTok : PVal → Bool
  | PVal.token ty (PVal.tree _ _ _) _ => strStarts ty "TREE__"
  | _ => false

/-- The child-rewriting pass of `splice_inserted_trees` over the children
of a tree: a splice token is replaced by the tree it carries (without
recursing into it); a child tree is rewritten recursively; every other
child is kept. -/
def spliceF : PForest → PForest
  | PForest.nil => PForest.nil
  | PForest.cons (PVal.token ty (PVal.tree d cs m) tm) rest =>
      PForest.cons
        (if strStarts ty "TREE__" then PVal.tree d cs m
         else PVal.token ty (PVal.tree d cs m) tm) (spliceF rest)
  | PForest.cons (PVal.tree d cs m) rest =>
      PForest.cons (PVal.tree d (spliceF cs) m) (spliceF rest)
  | PForest.cons v rest => PForest.cons v (spliceF rest)

/-- Embedding of `splice_inserted_trees` (`template_mode.py`), functional
form: rewrite the children of a tree; any non-tree argument is returned
unchanged (the Python function mutates nothing in that case). -/
def splice_inserted_trees : PVal → PVal
  | PVal.tree d cs m => PVal.tree d (spliceF cs) m
  | v => v

/-- No splice token occurs among the children at any tree depth of the
forest (carried values of non-splice tokens are never rewritten by
`splice_inserted_trees`, hence not inspected). -/
def noSpliceF : PForest → Bool
  | PForest.nil => true
  | PForest.cons (PVal.token ty (PVal.tree _ _ _) _) rest =>
      !(strStarts ty "TREE__") && noSpliceF rest
  | PForest.cons (PVal.tree _ cs _) rest => noSpliceF cs && noSpliceF rest
  | PForest.cons _ rest => noSpliceF rest

/-- Every splice token in the forest (at any tree depth) carries a tree
whose own subtree is free of splice tokens — the shape produced when the
carried trees are fully resolved results of a prior parse. -/
def goodF : PForest → Bool
  | PForest.nil => true
  | PForest.cons (PVal.token ty (PVal.tree _ cs _) _) rest =>
      (if strStarts ty "TREE__" then noSpliceF cs else true) && goodF rest
  | PForest.cons (PVal.tree _ cs _) rest => goodF cs && goodF rest
  | PForest.cons _ rest => goodF rest

/-- `goodF` lifted to a value: constrains the children when the value is a
tree (the only shape `splice_inserted_trees` rewrites). -/
def goodVal : PVal → Bool
  | PVal.tree _ cs _ => goodF cs
  | _ => true

/-- `noSpliceF` lifted to a value. -/
def noSpliceVal : PVal → Bool
  | PVal.tree _ cs _ => noSpliceF cs
  | _ => true

/-! ## The template frontend (`parser_frontends.py`) -/

/-- A registered expected runtime type for a typed placeholder: a single
class or a tuple of classes, identified by type names. `isinstance` is
modelled as exact type-name membership. -/
inductive PyType where
  | single (name : String)
  | tuple (names : List String)
deriving DecidableEq, Repr

/-- Python truthiness of a type or tuple-of-types value. -/
def pyTruthy : PyType → Bool
  | .single _ => true
  | .tuple l => !l.isEmpty

/-- `isinstance(v, t)` for the model's values and type expressions. -/
def isinstance (v : PVal) (t : PyType) : Bool :=
  match t with
  | .single n => typeNameOf v = n
  | .tuple l => l.contains (typeNameOf v)

/-- The joined type-name text used in the matcher's `TypeError` message. -/
def typeNamesStr : PyType → String
  | .single n => n
  | .tuple l => String.intercalate ", " l

/-- Embedding of the closure returned by
`TemplateEarleyFrontend._create_term_matcher`: name equality for ordinary
terminals, unconditional match for the generic placeholder, an
`isinstance` gate (raising `TypeError` on failure rather than reporting a
non-match) for typed placeholder terminals, and a carried-tree check for
splice terminals. -/
def term_matcher (typedExpected : List (String × String))
    (pyobjTypes : List (String × PyType)) (termName : String) (tok : PVal) :
    Except PyError Bool :=
  match tok with
  | PVal.token tokTy tokVal _ =>
      if termName = "PYOBJ" then .ok (tokTy = "PYOBJ")
      else if strStarts termName "PYOBJ__" then
        if tokTy ≠ termName ∧ tokTy ≠ "PYOBJ" then .ok false
        else
          match List.lookup termName typedExpected with
          | some en =>
              if en ≠ "" ∧ pyobjTypes ≠ [] then
                match List.lookup en pyobjTypes with
                | some et =>
                    if pyTruthy et ∧ ¬ isinstance tokVal et then
                      .error (.typeError ("Expected " ++ typeNamesStr et ++
                        " for PYOBJ[" ++ en ++ "], got " ++ typeNameOf tokVal))
                    else .ok true
                | none => .ok true
              else .ok true
          | none => .ok true
      else if strStarts termName "TREE__" then
        if tokTy ≠ termName then .ok false
        else .ok (isTreeVal tokVal)
      else .ok (tokTy = termName)
  | _ => .ok false

/-- The `start`-related fields of `ParserConf` consumed by the frontends. -/
structure ParserConf where
  rules : List Rule
  start : List String
deriving Repr

/-- The options the template frontend reads (`pyobj_types`). -/
structure Options where
  pyobjTypes : List (String × PyType) := []
deriving Repr

/-- The constructed template frontend state: the label map, type tables,
the filtered declared start symbols, the start names accepted by
`_verify_start` (declared starts plus all nonterminal names), and the
augmented grammar. -/
structure InitResult where
  treeTerminalMap : List (String × String)
  pyobjTypes : List (String × PyType)
  typedExpected : List (String × String)
  start : List String
  availableStarts : List String
  rules : List Rule
  lex : LexState
deriving Repr

/-- The start filter of `TemplateEarleyFrontend.__init__`: keep the
declared start symbols that name a nonterminal of the augmented grammar. -/
def tefFilteredStart (rules' : List Rule) (start : List String) : List String :=
  start.filter fun n => (rules'.map Rule.origin).contains n

/-- Embedding of `TemplateEarleyFrontend.__init__` (the configuration
part): augment the grammar, record the `pyobj_types` option and the
grammar's typed-placeholder table, and fail with a `ConfigurationError`
only when no declared start symbol names a nonterminal. -/
def TemplateEarleyFrontend_init (lexC : LexState) (pc : ParserConf)
    (g : Grammar) (opts : Options) : Except PyError InitResult :=
  let res := augment_grammar_for_template_mode lexC pc.rules g
  let fs := tefFilteredStart res.rules pc.start
  if fs.isEmpty then
    .error (.configurationError
      "Template parser requires at least one valid start rule")
  else
    .ok { treeTerminalMap := res.map, pyobjTypes := opts.pyobjTypes,
          typedExpected := g.pyobjTypeNames, start := fs,
          availableStarts := fs ++ res.rules.map Rule.origin,
          rules := res.rules, lex := res.lex }

/-- Embedding of `ParsingFrontend._verify_start`: with no request, a
unique declared start is chosen (multiple declared starts are a
`ConfigurationError`, an empty declaration list fails Python's unpacking
with a `ValueError`); a request must be a declared start symbol. -/
def ParsingFrontend_verify_start (startDecls : List String)
    (req : Option String) : Except PyError String :=
  match req with
  | none =>
      if startDecls.length > 1 then
        .error (.configurationError
          "Lark initialized with more than 1 possible start rule. Must specify which start rule to parse")
      else
        match startDecls with
        | [s] => .ok s
        | _ => .error (.valueError "not enough values to unpack")
  | some s =>
      if startDecls.contains s then .ok s
      else .error (.configurationError ("Unknown start rule " ++ s))

/-- Embedding of `TemplateEarleyFrontend._verify_start`: identical for an
omitted request, but a provided request is checked against
`_available_starts` (declared starts plus every nonterminal name). -/
def TemplateEarleyFrontend_verify_start (startDecls availableStarts : List String)
    (req : Option String) : Except PyError String :=
  match req with
  | none =>
      if startDecls.length > 1 then
        .error (.configurationError
          "Lark initialized with more than 1 possible start rule. Must specify which start rule to parse")
      else
        match startDecls with
        | [s] => .ok s
        | _ => .error (.valueError "not enough values to unpack")
  | some s =>
      if availableStarts.contains s then .ok s
      else .error (.configurationError ("Unknown start rule " ++ s))

/-- The field names of the `TemplateContext` dataclass in
`template_mode.py`. -/
def templateContextFields : List String :=
  ["lexer_conf", "tree_terminal_map", "source_info"]

/-- The keyword-argument names supplied at the `TemplateContext(...)` call
inside `TemplateEarleyFrontend.parse`. -/
def parseCtxCallKwargs : List String :=
  ["lexer_conf", "lexer", "tree_terminal_map", "source_info"]

/-- Python keyword-argument checking for a dataclass `__init__`: an
argument name outside the field list raises `TypeError`. -/
def dataclassCallCheck (fields supplied : List String) : Except PyError Unit :=
  match supplied.find? (fun k => !(fields.contains k)) with
  | some k =>
      .error (.typeError
        ("TemplateContext.__init__() got an unexpected keyword argument '"
          ++ k ++ "'"))
  | none => .ok ()

/-- A parse input: a plain string or a template object. -/
inductive ParseInput where
  | str (s : String)
  | template (t : Template)

/-- Embedding of `TemplateEarleyFrontend.parse`: resolve the start symbol;
a plain string goes to the ordinary lexer/backend path (a parameter, since
the backend lives outside the embedded sources); a template first executes
the `TemplateContext(lexer_conf=..., lexer=..., tree_terminal_map=...,
source_info=...)` constructor call, whose keyword arguments are checked
against the dataclass fields, before the rest of the template pipeline
(tokenization, backend parse, splicing — abstracted as `templateRest`). -/
def TemplateEarleyFrontend_parse (fr : InitResult) (input : ParseInput)
    (req : Option String)
    (plainPath : String → String → Except PyError PVal)
    (templateRest : Template → String → Except PyError PVal) :
    Except PyError PVal := do
  let chosen ← TemplateEarleyFrontend_verify_start fr.start fr.availableStarts req
  match input with
  | .str s => plainPath s chosen
  | .template t => do
      let _ ← dataclassCallCheck templateContextFields parseCtxCallKwargs
      templateRest t chosen

/-- `Except.isOk` as a plain function of the model. -/
def isOkE {ε α : Type} : Except ε α → Bool
  | .ok _ => true
  | .error _ => false

/-! ## Helper lemmas -/

theorem lookup_mem {α β : Type} [BEq α] [LawfulBEq α] (k : α) (v : β) :
    ∀ (l : List (α × β)), List.lookup k l = some v → (k, v) ∈ l
  | [], h => by simp [List.lookup] at h
  | (a, b) :: rest, h => by
    rw [List.lookup] at h
    cases hk : k == a with
    | true =>
      simp [hk] at h
      subst h
      have := eq_of_beq hk
      subst this
      exact List.mem_cons_self _ _
    | false =>
      simp [hk] at h
      exact List.mem_cons_of_mem _ (lookup_mem k v rest h)

theorem isPrefixOf_append_self (l t : List Char) : l.isPrefixOf (l ++ t) = true := by
  induction l with
  | nil => simp [List.isPrefixOf]
  | cons a as ih => simp [List.isPrefixOf, ih]

theorem strStarts_append_self (pre s : String) : strStarts (pre ++ s) pre = true := by
  unfold strStarts
  rw [String.data_append]
  exact isPrefixOf_append_self pre.data s.data

theorem pyobjPrefix_ne_PYOBJ (s : String) : ("PYOBJ__" ++ s) ≠ "PYOBJ" := by
  intro h
  have h2 := congrArg String.length h
  rw [String.length_append] at h2
  have e1 : "PYOBJ__".length = 7 := rfl
  have e2 : "PYOBJ".length = 5 := rfl
  omega

theorem treeTermName_ne_empty (l : String) : treeTermName l ≠ "" := by
  intro h
  have h2 := congrArg String.length h
  rw [treeTermName, String.length_append] at h2
  have e1 : "TREE__".length = 6 := rfl
  have e2 : "".length = 0 := rfl
  omega

theorem mapInsert_pres (P : String × String → Prop) (m : List (String × String))
    (k v : String) (h : ∀ p ∈ m, P p) (hkv : P (k, v)) :
    ∀ p ∈ mapInsert m k v, P p := by
  intro p hp
  unfold mapInsert at hp
  by_cases hs : (List.lookup k m).isSome
  · rw [if_pos hs] at hp
    obtain ⟨q, hq, rfl⟩ := List.mem_map.mp hp
    by_cases hqk : q.1 = k
    · simpa [hqk] using hkv
    · simpa [hqk] using h q hq
  · rw [if_neg hs] at hp
    rcases List.mem_append.mp hp with h1 | h1
    · exact h p h1
    · rw [List.mem_singleton.mp h1]
      exact hkv

theorem addLabelTerm_map_values (p : LexState × List (String × String))
    (label : String) (h : ∀ q ∈ p.2, q.2 = treeTermName q.1) :
    ∀ q ∈ (addLabelTerm p label).2, q.2 = treeTermName q.1 := by
  refine mapInsert_pres (fun q => q.2 = treeTermName q.1) p.2 label
    (treeTermName label) h rfl

theorem foldl_addLabelTerm_map_values (labels : List String) :
    ∀ (p : LexState × List (String × String)),
      (∀ q ∈ p.2, q.2 = treeTermName q.1) →
      ∀ q ∈ (labels.foldl addLabelTerm p).2, q.2 = treeTermName q.1 := by
  induction labels with
  | nil => intro p h; simpa using h
  | cons a as ih =>
      intro p h
      exact ih (addLabelTerm p a) (addLabelTerm_map_values p a h)

theorem addLabelTerms_map_values (groups : List (String × List String)) :
    ∀ (p : LexState × List (String × String)),
      (∀ q ∈ p.2, q.2 = treeTermName q.1) →
      ∀ q ∈ (addLabelTerms p groups).2, q.2 = treeTermName q.1 := by
  induction groups with
  | nil => intro p h; simpa [addLabelTerms] using h
  | cons g gs ih =>
      intro p h
      exact ih _ (foldl_addLabelTerm_map_values g.2 p h)

theorem augment_map_values (lexC : LexState) (rules : List Rule) (g : Grammar) :
    ∀ q ∈ (augment_grammar_for_template_mode lexC rules g).map,
      q.2 = treeTermName q.1 := by
  intro q hq
  exact addLabelTerms_map_values (groupLabels rules []) _ (by simp) q hq

/-- Conditional reduction of the matcher on a typed placeholder terminal
with a fully registered mapping. -/
theorem term_matcher_typed (typedExpected : List (String × String))
    (pyobjTypes : List (String × PyType)) (suf en : String) (et : PyType)
    (tokTy : String) (v : PVal) (mm : TokMeta)
    (hlook : List.lookup ("PYOBJ__" ++ suf) typedExpected = some en)
    (hen : en ≠ "") (hpt : pyobjTypes ≠ [])
    (hety : List.lookup en pyobjTypes = some et) (htr : pyTruthy et = true)
    (hty : tokTy = "PYOBJ__" ++ suf ∨ tokTy = "PYOBJ") :
    term_matcher typedExpected pyobjTypes ("PYOBJ__" ++ suf) (PVal.token tokTy v mm) =
      if isinstance v et then .ok true
      else .error (.typeError ("Expected " ++ typeNamesStr et ++
        " for PYOBJ[" ++ en ++ "], got " ++ typeNameOf v)) := by
  have hcase : ¬(tokTy ≠ ("PYOBJ__" ++ suf) ∧ tokTy ≠ "PYOBJ") := by
    rcases hty with h | h <;> simp [h]
  simp only [term_matcher, if_neg (pyobjPrefix_ne_PYOBJ suf),
    if_pos (strStarts_append_self "PYOBJ__" suf), if_neg hcase, hlook, hety]
  rw [if_pos ⟨hen, hpt⟩]
  by_cases hi : isinstance v et
  · rw [if_neg (by simp [htr, hi]), if_pos hi]
  · rw [if_pos ⟨htr, by simp [hi]⟩, if_neg (by simp [hi])]

/-! ## Claim theorems -/

/-- Claim C1 (code bug): parsing the template form of a literal text is
claimed to return the same tree as parsing the plain string, but the
`TemplateContext(...)` call inside `TemplateEarleyFrontend.parse` passes
the keyword argument `lexer`, which is not a field of the
`TemplateContext` dataclass, so every template parse raises `TypeError`
before tokenization — whatever the rest of the template pipeline and the
plain-string path would do. -/
theorem tef_parse_template_raises_typeError :
    ∀ (plainPath : String → String → Except PyError PVal)
      (templateRest : Template → String → Except PyError PVal),
      (TemplateEarleyFrontend_init ⟨[], []⟩
          ⟨[{origin := "start", expansion := [Sym.term "NUMBER"]}], ["start"]⟩ {} {}).map
        (fun fr => TemplateEarleyFrontend_parse fr
          (ParseInput.template ⟨["42"], [], none⟩) none plainPath templateRest)
      = Except.ok (Except.error (PyError.typeError
          "TemplateContext.__init__() got an unexpected keyword argument 'lexer'")) := by
  intro plainPath templateRest
  rfl

/-- Claim C7 (counterexample): the grammar declares the typed placeholder
terminal `PYOBJ__NUM` (augmentation registers it), no type mapping is
supplied in `pyobj_types`, and yet `TemplateEarleyFrontend.__init__`
succeeds — no configuration error is raised at construction time. -/
theorem init_missing_type_mapping_succeeds :
    (let g : Grammar := ⟨true, [("PYOBJ__NUM", "num")]⟩
     let pc : ParserConf :=
       ⟨[{origin := "start", expansion := [Sym.term "PYOBJ__NUM"]}], ["start"]⟩
     let opts : Options := ⟨[]⟩
     isOkE (TemplateEarleyFrontend_init ⟨[], []⟩ pc g opts) = true ∧
     (augment_grammar_for_template_mode ⟨[], []⟩ pc.rules g).lex.terminals.contains
       ⟨"PYOBJ__NUM", Pattern.placeholder (some "num")⟩ = true ∧
     opts.pyobjTypes = []) := by
  exact ⟨rfl, rfl, rfl⟩

/-- Claim C7 (amended): constructing the template frontend performs no
check that a declared typed placeholder terminal has a type mapping: the
construction succeeds whenever a declared start symbol names a
nonterminal, and at terminal-match time a typed placeholder terminal
whose type key has no entry in `pyobj_types` matches any placeholder
token silently instead of raising. -/
theorem init_no_eager_type_mapping_check (lexC : LexState) (pc : ParserConf)
    (g : Grammar) (opts : Options)
    (h : tefFilteredStart (augment_grammar_for_template_mode lexC pc.rules g).rules
          pc.start ≠ []) :
    isOkE (TemplateEarleyFrontend_init lexC pc g opts) = true ∧
    (∀ (suf en tokTy : String) (v : PVal) (mm : TokMeta),
      List.lookup ("PYOBJ__" ++ suf) g.pyobjTypeNames = some en →
      List.lookup en opts.pyobjTypes = none →
      (tokTy = "PYOBJ__" ++ suf ∨ tokTy = "PYOBJ") →
      term_matcher g.pyobjTypeNames opts.pyobjTypes ("PYOBJ__" ++ suf)
        (PVal.token tokTy v mm) = .ok true) := by
  constructor
  · unfold TemplateEarleyFrontend_init
    rw [if_neg (by simpa [List.isEmpty_iff] using h)]
    rfl
  · intro suf en tokTy v mm hlook hnone hty
    have hcase : ¬(tokTy ≠ ("PYOBJ__" ++ suf) ∧ tokTy ≠ "PYOBJ") := by
      rcases hty with h | h <;> simp [h]
    simp only [term_matcher, if_neg (pyobjPrefix_ne_PYOBJ suf),
      if_pos (strStarts_append_self "PYOBJ__" suf), if_neg hcase, hlook, hnone]
    by_cases hguard : en ≠ "" ∧ opts.pyobjTypes ≠ []
    · rw [if_pos hguard]
    · rw [if_neg hguard]

/-- Witness for `init_no_eager_type_mapping_check` at a concrete
configuration. -/
theorem init_no_eager_type_mapping_check_witness :
    isOkE (TemplateEarleyFrontend_init ⟨[], []⟩
      ⟨[{origin := "start", expansion := [Sym.term "PYOBJ__NUM"]}], ["start"]⟩
      ⟨true, [("PYOBJ__NUM", "num")]⟩ ⟨[]⟩) = true ∧
    term_matcher [("PYOBJ__NUM", "num")] [] ("PYOBJ__" ++ "NUM")
      (PVal.token "PYOBJ" (PVal.str "oops") {}) = .ok true := by
  have h := init_no_eager_type_mapping_check ⟨[], []⟩
    ⟨[{origin := "start", expansion := [Sym.term "PYOBJ__NUM"]}], ["start"]⟩
    ⟨true, [("PYOBJ__NUM", "num")]⟩ ⟨[]⟩ (by decide)
  exact ⟨h.1, h.2 "NUM" "num" "PYOBJ" (PVal.str "oops") {} (by decide) rfl (Or.inr rfl)⟩

/-- Claim C8 (counterexample): for the template frontend, requesting the
start symbol `expr`, which is a nonterminal but not among the declared
start symbols (`start` only), does not raise — `_verify_start` accepts
every nonterminal name. -/
theorem template_verify_start_accepts_undeclared :
    ((TemplateEarleyFrontend_init ⟨[], []⟩
        ⟨[{origin := "start", expansion := [Sym.nt "expr"]},
          {origin := "expr", expansion := [Sym.term "A"]}], ["start"]⟩ {} {}).map
      (fun r => TemplateEarleyFrontend_verify_start r.start r.availableStarts
        (some "expr")))
      = Except.ok (Except.ok "expr") ∧
    (["start"].contains "expr") = false := by
  exact ⟨rfl, rfl⟩

/-- Claim C8 (amended): the core frontend resolves the start symbol
exactly as claimed (unique declared start when omitted; configuration
errors when omitted-with-several or when the request is undeclared).  The
template frontend behaves the same for an omitted request, but checks a
provided request against `_available_starts` — the declared start symbols
plus every nonterminal name — raising only for names outside that set. -/
theorem verify_start_behavior (decls avail : List String) (s : String) :
    ((∀ u, decls = [u] → ParsingFrontend_verify_start decls none = .ok u) ∧
     (decls.length > 1 → ParsingFrontend_verify_start decls none =
        .error (.configurationError
          "Lark initialized with more than 1 possible start rule. Must specify which start rule to parse")) ∧
     (s ∉ decls → ParsingFrontend_verify_start decls (some s) =
        .error (.configurationError ("Unknown start rule " ++ s)))) ∧
    ((∀ u, decls = [u] → TemplateEarleyFrontend_verify_start decls avail none = .ok u) ∧
     (decls.length > 1 → TemplateEarleyFrontend_verify_start decls avail none =
        .error (.configurationError
          "Lark initialized with more than 1 possible start rule. Must specify which start rule to parse")) ∧
     (s ∉ avail → TemplateEarleyFrontend_verify_start decls avail (some s) =
        .error (.configurationError ("Unknown start rule " ++ s))) ∧
     (s ∈ avail → TemplateEarleyFrontend_verify_start decls avail (some s) = .ok s)) := by
  refine ⟨⟨?_, ?_, ?_⟩, ?_, ?_, ?_, ?_⟩
  · intro u hu
    subst hu
    rfl
  · intro hlen
    unfold ParsingFrontend_verify_start
    rw [if_pos hlen]
  · intro hmem
    simp only [ParsingFrontend_verify_start]
    rw [if_neg (by simpa using hmem)]
  · intro u hu
    subst hu
    rfl
  · intro hlen
    unfold TemplateEarleyFrontend_verify_start
    rw [if_pos hlen]
  · intro hmem
    simp only [TemplateEarleyFrontend_verify_start]
    rw [if_neg (by simpa using hmem)]
  · intro hmem
    simp only [TemplateEarleyFrontend_verify_start]
    rw [if_pos (by simpa using hmem)]

/-- Claim C2: for a typed placeholder terminal with a registered expected
type, the terminal-match predicate accepts a placeholder token carrying
`v` iff `v` is an instance of the registered type, and raises a
`TypeError` (never a silent non-match) for every other value. -/
theorem typed_placeholder_match_iff_instance
    (typedExpected : List (String × String))
    (pyobjTypes : List (String × PyType)) (suf en : String) (et : PyType)
    (tokTy : String) (v : PVal) (mm : TokMeta)
    (hlook : List.lookup ("PYOBJ__" ++ suf) typedExpected = some en)
    (hen : en ≠ "") (hpt : pyobjTypes ≠ [])
    (hety : List.lookup en pyobjTypes = some et) (htr : pyTruthy et = true)
    (hty : tokTy = "PYOBJ__" ++ suf ∨ tokTy = "PYOBJ") :
    (isinstance v et = true →
      term_matcher typedExpected pyobjTypes ("PYOBJ__" ++ suf)
        (PVal.token tokTy v mm) = .ok true) ∧
    (isinstance v et = false →
      term_matcher typedExpected pyobjTypes ("PYOBJ__" ++ suf)
        (PVal.token tokTy v mm) =
        .error (.typeError ("Expected " ++ typeNamesStr et ++
          " for PYOBJ[" ++ en ++ "], got " ++ typeNameOf v))) := by
  rw [term_matcher_typed typedExpected pyobjTypes suf en et tokTy v mm
    hlook hen hpt hety htr hty]
  constructor
  · intro hi
    rw [if_pos hi]
  · intro hi
    rw [if_neg (by simp [hi])]

/-- Witness for `typed_placeholder_match_iff_instance`: a concrete
`PYOBJ__IMAGE` terminal accepting an `Image`-typed value and raising on a
string value. -/
theorem typed_placeholder_match_iff_instance_witness :
    term_matcher [("PYOBJ__IMAGE", "image")] [("image", PyType.single "Image")]
      ("PYOBJ__" ++ "IMAGE") (PVal.token "PYOBJ" (PVal.obj ⟨"Image", 7⟩) {}) =
      .ok true ∧
    term_matcher [("PYOBJ__IMAGE", "image")] [("image", PyType.single "Image")]
      ("PYOBJ__" ++ "IMAGE") (PVal.token "PYOBJ" (PVal.str "oops") {}) =
      .error (.typeError ("Expected " ++ typeNamesStr (PyType.single "Image") ++
        " for PYOBJ[" ++ "image" ++ "], got " ++ typeNameOf (PVal.str "oops"))) := by
  constructor
  · exact (typed_placeholder_match_iff_instance
      [("PYOBJ__IMAGE", "image")] [("image", PyType.single "Image")] "IMAGE"
      "image" (PyType.single "Image") "PYOBJ" (PVal.obj ⟨"Image", 7⟩) {}
      rfl (by decide) (by decide) rfl rfl (Or.inr rfl)).1 rfl
  · exact (typed_placeholder_match_iff_instance
      [("PYOBJ__IMAGE", "image")] [("image", PyType.single "Image")] "IMAGE"
      "image" (PyType.single "Image") "PYOBJ" (PVal.str "oops") {}
      rfl (by decide) (by decide) rfl rfl (Or.inr rfl)).2 rfl

/-- Claim C3: splicing a tree labelled `L` into a template tokenizes to
exactly one token of the terminal the augmentation map assigns to `L`
(carrying the tree) when `L` is in the map, and raises a
`ValueError`-class failure naming `L` when it is not. -/
theorem tokenize_tree_splice_iff_label_mapped
    (lexSlice : String → Nat → Nat → Except PyError (List PVal))
    (lexC : LexState) (rules : List Rule) (g : Grammar)
    (L : String) (cs : PForest) (tm : Option TokMeta) :
    (∀ tn, List.lookup L (augment_grammar_for_template_mode lexC rules g).map =
        some tn →
      tokenize_template lexSlice ⟨["", ""], [⟨PVal.tree L cs tm⟩], none⟩
        ⟨(augment_grammar_for_template_mode lexC rules g).map, none⟩ =
        .ok [PVal.token tn (PVal.tree L cs tm)
              (treeTokenMeta (PVal.tree L cs tm) {})]) ∧
    (List.lookup L (augment_grammar_for_template_mode lexC rules g).map = none →
      tokenize_template lexSlice ⟨["", ""], [⟨PVal.tree L cs tm⟩], none⟩
        ⟨(augment_grammar_for_template_mode lexC rules g).map, none⟩ =
        .error (.valueError (cannotSpliceMsg L))) := by
  constructor
  · intro tn hlook
    have htn : tn = treeTermName L :=
      augment_map_values lexC rules g (L, tn) (lookup_mem _ _ _ hlook)
    have hne : ¬(tn = "") := htn ▸ treeTermName_ne_empty L
    simp [tokenize_template, tokenizeGo, interpMeta, hlook, hne,
      Bind.bind, Except.bind, Pure.pure, Except.pure]
  · intro hnone
    simp [tokenize_template, tokenizeGo, interpMeta, hnone,
      Bind.bind, Except.bind, Pure.pure, Except.pure]

/-- Witness for `tokenize_tree_splice_iff_label_mapped`: for the one-rule
grammar `expr -> NUMBER`, splicing `Tree('expr')` emits one `TREE__EXPR`
token and splicing `Tree('zzz')` raises the `ValueError` naming `zzz`. -/
theorem tokenize_tree_splice_iff_label_mapped_witness :
    tokenize_template (fun _ _ _ => .ok [])
      ⟨["", ""], [⟨PVal.tree "expr" PForest.nil none⟩], none⟩
      ⟨(augment_grammar_for_template_mode ⟨[], []⟩
          [{origin := "expr", expansion := [Sym.term "NUMBER"]}] {}).map, none⟩ =
      .ok [PVal.token "TREE__EXPR" (PVal.tree "expr" PForest.nil none)
            (treeTokenMeta (PVal.tree "expr" PForest.nil none) {})] ∧
    tokenize_template (fun _ _ _ => .ok [])
      ⟨["", ""], [⟨PVal.tree "zzz" PForest.nil none⟩], none⟩
      ⟨(augment_grammar_for_template_mode ⟨[], []⟩
          [{origin := "expr", expansion := [Sym.term "NUMBER"]}] {}).map, none⟩ =
      .error (.valueError (cannotSpliceMsg "zzz")) := by
  constructor
  · exact (tokenize_tree_splice_iff_label_mapped (fun _ _ _ => .ok []) ⟨[], []⟩
      [{origin := "expr", expansion := [Sym.term "NUMBER"]}] {}
      "expr" PForest.nil none).1 "TREE__EXPR" rfl
  · exact (tokenize_tree_splice_iff_label_mapped (fun _ _ _ => .ok []) ⟨[], []⟩
      [{origin := "expr", expansion := [Sym.term "NUMBER"]}] {}
      "zzz" PForest.nil none).2 rfl

/-- Claim C10: for source text `"a{123}"` with segment span `(0,1)` and
interpolation span `(1,6)`, the placeholder token emitted for the
interpolated value `123` carries `line = 1` and `column = 2`. -/
theorem placeholder_token_position_a123
    (lexSlice : String → Nat → Nat → Except PyError (List PVal))
    (m : List (String × String)) (ts : List PVal)
    (h : lexSlice "a{123}" 0 1 = .ok ts) :
    tokenize_template lexSlice
      ⟨["a", ""], [⟨PVal.obj ⟨"int", 123⟩⟩],
        some ⟨"", "a{123}", [(0, 1)], [(1, 6)]⟩⟩
      ⟨m, some ⟨"", "a{123}", [(0, 1)], [(1, 6)]⟩⟩ =
      .ok (ts ++ [PVal.token "PYOBJ" (PVal.obj ⟨"int", 123⟩)
            (_offset_to_meta "a{123}" 1 6)]) ∧
    (_offset_to_meta "a{123}" 1 6).line = some 1 ∧
    (_offset_to_meta "a{123}" 1 6).column = some 2 := by
  refine ⟨?_, by decide, by decide⟩
  simp [tokenize_template, tokenizeGo, interpMeta, h,
    Bind.bind, Except.bind, Pure.pure, Except.pure]

/-- Witness for `placeholder_token_position_a123` with a lexer returning
no tokens for the literal segment. -/
theorem placeholder_token_position_a123_witness :
    tokenize_template (fun _ _ _ => .ok [])
      ⟨["a", ""], [⟨PVal.obj ⟨"int", 123⟩⟩],
        some ⟨"", "a{123}", [(0, 1)], [(1, 6)]⟩⟩
      ⟨[], some ⟨"", "a{123}", [(0, 1)], [(1, 6)]⟩⟩ =
      .ok ([] ++ [PVal.token "PYOBJ" (PVal.obj ⟨"int", 123⟩)
            (_offset_to_meta "a{123}" 1 6)]) ∧
    (_offset_to_meta "a{123}" 1 6).line = some 1 ∧
    (_offset_to_meta "a{123}" 1 6).column = some 2 :=
  placeholder_token_position_a123 (fun _ _ _ => .ok []) [] [] rfl

/-- Claim C6 (counterexample): with the type-keyed placeholder variant
configured (`PYOBJ__IMAGE` registered for type key `image`) and an
interpolated value whose runtime type matches that key, the tokenizer
still emits the generic `PYOBJ` terminal, not `PYOBJ__IMAGE`. -/
theorem tokenizer_emits_generic_not_typed :
    (augment_grammar_for_template_mode ⟨[], []⟩
        [{origin := "start", expansion := [Sym.term "PYOBJ__IMAGE"]}]
        ⟨true, [("PYOBJ__IMAGE", "image")]⟩).lex.terminals.contains
        ⟨"PYOBJ__IMAGE", Pattern.placeholder (some "image")⟩ = true ∧
    isinstance (PVal.obj ⟨"Image", 0⟩) (PyType.single "Image") = true ∧
    tokenize_template (fun _ _ _ => .ok [])
        ⟨["", ""], [⟨PVal.obj ⟨"Image", 0⟩⟩], none⟩
        ⟨(augment_grammar_for_template_mode ⟨[], []⟩
            [{origin := "start", expansion := [Sym.term "PYOBJ__IMAGE"]}]
            ⟨true, [("PYOBJ__IMAGE", "image")]⟩).map, none⟩ =
      .ok [PVal.token "PYOBJ" (PVal.obj ⟨"Image", 0⟩) {}] ∧
    "PYOBJ" ≠ "PYOBJ__IMAGE" := by
  exact ⟨rfl, rfl, rfl, by decide⟩

/-- Claim C6 (amended): the tokenizer emits the generic `PYOBJ` terminal
for every non-tree interpolated value, regardless of any configured type
keys; the type-keyed discrimination happens at terminal-match time, where
a typed placeholder terminal also accepts a generic `PYOBJ` token whose
value passes its `isinstance` check. -/
theorem tokenizer_always_generic_placeholder
    (lexSlice : String → Nat → Nat → Except PyError (List PVal))
    (m : List (String × String)) (v : PVal) (hv : isTreeVal v = false)
    (typedExpected : List (String × String))
    (pyobjTypes : List (String × PyType)) (suf en : String) (et : PyType)
    (hlook : List.lookup ("PYOBJ__" ++ suf) typedExpected = some en)
    (hen : en ≠ "") (hpt : pyobjTypes ≠ [])
    (hety : List.lookup en pyobjTypes = some et) (htr : pyTruthy et = true)
    (hi : isinstance v et = true) :
    tokenize_template lexSlice ⟨["", ""], [⟨v⟩], none⟩ ⟨m, none⟩ =
      .ok [PVal.token "PYOBJ" v {}] ∧
    term_matcher typedExpected pyobjTypes ("PYOBJ__" ++ suf)
      (PVal.token "PYOBJ" v {}) = .ok true := by
  constructor
  · cases v with
    | tree d cs mm => simp [isTreeVal] at hv
    | token ty val mm =>
        simp [tokenize_template, tokenizeGo, interpMeta,
          Bind.bind, Except.bind, Pure.pure, Except.pure]
    | obj o =>
        simp [tokenize_template, tokenizeGo, interpMeta,
          Bind.bind, Except.bind, Pure.pure, Except.pure]
    | str s =>
        simp [tokenize_template, tokenizeGo, interpMeta,
          Bind.bind, Except.bind, Pure.pure, Except.pure]
  · rw [term_matcher_typed typedExpected pyobjTypes suf en et "PYOBJ" v {}
      hlook hen hpt hety htr (Or.inr rfl), if_pos hi]

/-- Witness for `tokenizer_always_generic_placeholder` at a concrete
image-typed configuration. -/
theorem tokenizer_always_generic_placeholder_witness :
    tokenize_template (fun _ _ _ => .ok [])
      ⟨["", ""], [⟨PVal.obj ⟨"Image", 3⟩⟩], none⟩ ⟨[], none⟩ =
      .ok [PVal.token "PYOBJ" (PVal.obj ⟨"Image", 3⟩) {}] ∧
    term_matcher [("PYOBJ__IMAGE", "image")] [("image", PyType.single "Image")]
      ("PYOBJ__" ++ "IMAGE") (PVal.token "PYOBJ" (PVal.obj ⟨"Image", 3⟩) {}) =
      .ok true :=
  tokenizer_always_generic_placeholder (fun _ _ _ => .ok []) []
    (PVal.obj ⟨"Image", 3⟩) rfl [("PYOBJ__IMAGE", "image")]
    [("image", PyType.single "Image")] "IMAGE" "image" (PyType.single "Image")
    rfl (by decide) (by decide) rfl rfl rfl

/-- A forest with no splice tokens is left unchanged by the splice pass. -/
theorem spliceF_of_noSpliceF : ∀ l, noSpliceF l = true → spliceF l = l := by
  intro l
  induction l using spliceF.induct with
  | case1 => intro _; rfl
  | case2 ty d cs m tm rest ih =>
      intro h
      simp [noSpliceF] at h
      simp [spliceF, h.1, ih h.2]
  | case3 d cs m rest ih1 ih2 =>
      intro h
      simp [noSpliceF] at h
      simp [spliceF, ih1 h.1, ih2 h.2]
  | case4 v rest hne1 hne2 ih =>
      intro h
      cases v with
      | tree d cs m => exact absurd rfl (hne2 d cs m)
      | token ty val tm =>
          cases val with
          | tree d cs m => exact absurd rfl (hne1 ty d cs m tm)
          | token a b c =>
              simp [noSpliceF] at h
              simp [spliceF, ih h]
          | obj o =>
              simp [noSpliceF] at h
              simp [spliceF, ih h]
          | str s =>
              simp [noSpliceF] at h
              simp [spliceF, ih h]
      | obj o =>
          simp [noSpliceF] at h
          simp [spliceF, ih h]
      | str s =>
          simp [noSpliceF] at h
          simp [spliceF, ih h]

/-- After one splice pass over a forest whose carried trees are fully
resolved, no splice tokens remain. -/
theorem noSpliceF_spliceF_of_goodF : ∀ l, goodF l = true → noSpliceF (spliceF l) = true := by
  intro l
  induction l using spliceF.induct with
  | case1 => intro _; rfl
  | case2 ty d cs m tm rest ih =>
      intro h
      simp [goodF] at h
      by_cases hs : strStarts ty "TREE__" = true
      · have hcs : noSpliceF cs = true := by
          rcases h.1 with h1 | h1
          · exact absurd hs (by simp [h1])
          · exact h1
        simp [spliceF, hs, noSpliceF, hcs, ih h.2]
      · simp [spliceF, hs, noSpliceF, ih h.2]
  | case3 d cs m rest ih1 ih2 =>
      intro h
      simp [goodF] at h
      simp [spliceF, noSpliceF, ih1 h.1, ih2 h.2]
  | case4 v rest hne1 hne2 ih =>
      intro h
      cases v with
      | tree d cs m => exact absurd rfl (hne2 d cs m)
      | token ty val tm =>
          cases val with
          | tree d cs m => exact absurd rfl (hne1 ty d cs m tm)
          | token a b c =>
              simp [goodF] at h
              simp [spliceF, noSpliceF, ih h]
          | obj o =>
              simp [goodF] at h
              simp [spliceF, noSpliceF, ih h]
          | str s =>
              simp [goodF] at h
              simp [spliceF, noSpliceF, ih h]
      | obj o =>
          simp [goodF] at h
          simp [spliceF, noSpliceF, ih h]
      | str s =>
          simp [goodF] at h
          simp [spliceF, noSpliceF, ih h]

/-- Claim C5 (counterexample): the splice pass is not idempotent on every
tree — a splice token whose carried tree itself contains a splice token
is rewritten again by a second pass, because the first pass deliberately
does not recurse into the carried tree. -/
theorem splice_not_idempotent :
    splice_inserted_trees (splice_inserted_trees
      (PVal.tree "a" (PForest.cons (PVal.token "TREE__B"
        (PVal.tree "b" (PForest.cons (PVal.token "TREE__C"
          (PVal.tree "c" PForest.nil none) {}) PForest.nil) none) {})
        PForest.nil) none)) ≠
    splice_inserted_trees
      (PVal.tree "a" (PForest.cons (PVal.token "TREE__B"
        (PVal.tree "b" (PForest.cons (PVal.token "TREE__C"
          (PVal.tree "c" PForest.nil none) {}) PForest.nil) none) {})
        PForest.nil) none) := by
  intro h
  exact absurd (congrArg noSpliceVal h) (by decide)

/-- Claim C5 (amended): the splice pass is idempotent on every tree whose
splice tokens carry fully resolved trees (no splice tokens inside the
carried subtrees) — in particular on any tree whose carried subtrees are
results of a prior parse: `splice(splice(t)) = splice(t)`. -/
theorem splice_idempotent_of_resolved_carried_trees (v : PVal)
    (h : goodVal v = true) :
    splice_inserted_trees (splice_inserted_trees v) = splice_inserted_trees v := by
  cases v with
  | tree d cs m =>
      simp [goodVal] at h
      simp [splice_inserted_trees,
        spliceF_of_noSpliceF (spliceF cs) (noSpliceF_spliceF_of_goodF cs h)]
  | token ty val tm => rfl
  | obj o => rfl
  | str s => rfl

/-- Witness for `splice_idempotent_of_resolved_carried_trees` on a
concrete tree with one splice token carrying a resolved subtree. -/
theorem splice_idempotent_of_resolved_carried_trees_witness :
    goodVal (PVal.tree "a" (PForest.cons (PVal.token "TREE__B"
      (PVal.tree "b" PForest.nil none) {}) PForest.nil) none) = true ∧
    splice_inserted_trees (splice_inserted_trees
      (PVal.tree "a" (PForest.cons (PVal.token "TREE__B"
        (PVal.tree "b" PForest.nil none) {}) PForest.nil) none)) =
    splice_inserted_trees
      (PVal.tree "a" (PForest.cons (PVal.token "TREE__B"
        (PVal.tree "b" PForest.nil none) {}) PForest.nil) none) :=
  ⟨by decide, splice_idempotent_of_resolved_carried_trees _ (by decide)⟩

theorem foldl_max_le_init : ∀ (as : List Int) (a : Int), a ≤ as.foldl max a := by
  intro as
  induction as with
  | nil => intro a; exact le_refl a
  | cons b bs ih =>
      intro a
      calc a ≤ max a b := le_max_left a b
        _ ≤ bs.foldl max (max a b) := ih (max a b)

theorem foldl_max_mem : ∀ (as : List Int) (a x : Int), x ∈ as → x ≤ as.foldl max a := by
  intro as
  induction as with
  | nil => intro a x hx; simp at hx
  | cons b bs ih =>
      intro a x hx
      rcases List.mem_cons.mp hx with rfl | hx
      · calc x ≤ max a x := le_max_right a x
          _ ≤ bs.foldl max (max a x) := foldl_max_le_init bs (max a x)
      · exact ih (max a b) x hx

theorem pymax_ge (l : List Int) (d : Int) : ∀ x ∈ l, x ≤ pymax l d := by
  cases l with
  | nil => intro x hx; simp at hx
  | cons a as =>
      intro x hx
      rw [pymax]
      rcases List.mem_cons.mp hx with rfl | hx
      · exact foldl_max_le_init as x
      · exact foldl_max_mem as a x hx

theorem synthLoop_mem (o : String) (m : List (String × String)) :
    ∀ (labels : List String) (ord : Int) (ex : List (String × List Sym)) (r : Rule),
      r ∈ (synthLoop o m labels ord ex).1 →
      r.origin = o ∧ ord ≤ r.order ∧ r.key ∉ ex := by
  intro labels
  induction labels with
  | nil => intro ord ex r hr; simp [synthLoop] at hr
  | cons label rest ih =>
      intro ord ex r hr
      simp only [synthLoop] at hr
      by_cases hmem : (o, [Sym.term ((List.lookup label m).getD "")]) ∈ ex
      · rw [if_pos hmem] at hr
        exact ih ord ex r hr
      · rw [if_neg hmem] at hr
        rcases List.mem_cons.mp hr with rfl | hr
        · exact ⟨rfl, le_refl _, hmem⟩
        · obtain ⟨h1, h2, h3⟩ := ih (ord + 1) _ r hr
          refine ⟨h1, le_trans (by omega) h2, fun hk => h3 ?_⟩
          exact List.mem_append_left _ hk

theorem synthLoop_pairwise_lt (o : String) (m : List (String × String)) :
    ∀ (labels : List String) (ord : Int) (ex : List (String × List Sym)),
      List.Pairwise (fun a b => a.order < b.order) (synthLoop o m labels ord ex).1 := by
  intro labels
  induction labels with
  | nil => intro ord ex; simp [synthLoop]
  | cons label rest ih =>
      intro ord ex
      simp only [synthLoop]
      by_cases hmem : (o, [Sym.term ((List.lookup label m).getD "")]) ∈ ex
      · rw [if_pos hmem]
        exact ih ord ex
      · rw [if_neg hmem]
        refine List.Pairwise.cons ?_ (ih (ord + 1) _)
        intro b hb
        have := (synthLoop_mem o m rest (ord + 1) _ b hb).2.1
        show ord < b.order
        omega

theorem synthLoop_snd (o : String) (m : List (String × String)) :
    ∀ (labels : List String) (ord : Int) (ex : List (String × List Sym)),
      (synthLoop o m labels ord ex).2 =
        ex ++ (synthLoop o m labels ord ex).1.map Rule.key := by
  intro labels
  induction labels with
  | nil => intro ord ex; simp [synthLoop]
  | cons label rest ih =>
      intro ord ex
      simp only [synthLoop]
      by_cases hmem : (o, [Sym.term ((List.lookup label m).getD "")]) ∈ ex
      · rw [if_pos hmem]
        exact ih ord ex
      · rw [if_neg hmem]
        simp only [List.map_cons]
        rw [ih (ord + 1) _]
        simp [Rule.key, List.append_assoc]

theorem synthLoop_keys_pairwise (o : String) (m : List (String × String)) :
    ∀ (labels : List String) (ord : Int) (ex : List (String × List Sym)),
      List.Pairwise (fun a b => a.key ≠ b.key) (synthLoop o m labels ord ex).1 := by
  intro labels
  induction labels with
  | nil => intro ord ex; simp [synthLoop]
  | cons label rest ih =>
      intro ord ex
      simp only [synthLoop]
      by_cases hmem : (o, [Sym.term ((List.lookup label m).getD "")]) ∈ ex
      · rw [if_pos hmem]
        exact ih ord ex
      · rw [if_neg hmem]
        refine List.Pairwise.cons ?_ (ih (ord + 1) _)
        intro b hb hkey
        have h3 := (synthLoop_mem o m rest (ord + 1) _ b hb).2.2
        apply h3
        rw [← hkey]
        exact List.mem_append_right _ (List.mem_singleton.mpr rfl)

theorem synthAll_mem (m : List (String × String)) (rules : List Rule) :
    ∀ (groups : List (String × List String)) (ex : List (String × List Sym)) (r : Rule),
      r ∈ (synthAll m rules groups ex).1 →
      r.key ∉ ex ∧ (∃ gr ∈ groups, r.origin = gr.1) ∧
      (∀ r0 ∈ rules, r0.origin = r.origin → r0.order < r.order) := by
  intro groups
  induction groups with
  | nil => intro ex r hr; simp [synthAll] at hr
  | cons gr rest ih =>
      intro ex r hr
      obtain ⟨o, labels⟩ := gr
      simp only [synthAll] at hr
      rcases List.mem_append.mp hr with hr | hr
      · obtain ⟨h1, h2, h3⟩ := synthLoop_mem o m labels _ ex r hr
        refine ⟨h3, ⟨(o, labels), List.mem_cons_self _ _, h1⟩, ?_⟩
        intro r0 hr0 ho
        have hmemo : r0.order ∈
            ((rules.filter fun q => q.origin = o).map Rule.order) := by
          refine List.mem_map.mpr ⟨r0, ?_, rfl⟩
          refine List.mem_filter.mpr ⟨hr0, ?_⟩
          simp [ho, h1]
        have hle := pymax_ge _ (-1) r0.order hmemo
        omega
      · obtain ⟨h1, h2, h3⟩ := ih _ r hr
        refine ⟨fun hk => h1 ?_, ?_, h3⟩
        · rw [synthLoop_snd]
          exact List.mem_append_left _ hk
        · obtain ⟨g', hg', ho'⟩ := h2
          exact ⟨g', List.mem_cons_of_mem _ hg', ho'⟩

theorem synthAll_keys_pairwise (m : List (String × String)) (rules : List Rule) :
    ∀ (groups : List (String × List String)) (ex : List (String × List Sym)),
      List.Pairwise (fun a b => a.key ≠ b.key) (synthAll m rules groups ex).1 := by
  intro groups
  induction groups with
  | nil => intro ex; simp [synthAll]
  | cons gr rest ih =>
      intro ex
      obtain ⟨o, labels⟩ := gr
      simp only [synthAll]
      rw [List.pairwise_append]
      refine ⟨synthLoop_keys_pairwise o m labels _ ex, ih _, ?_⟩
      intro a ha b hb hkey
      have h1 := (synthAll_mem m rules rest _ b hb).1
      apply h1
      rw [synthLoop_snd, ← hkey]
      exact List.mem_append_right _ (List.mem_map_of_mem Rule.key ha)

theorem synthAll_pairwise_order (m : List (String × String)) (rules : List Rule) :
    ∀ (groups : List (String × List String)),
      List.Pairwise (fun g1 g2 => g1.1 ≠ g2.1) groups →
      ∀ (ex : List (String × List Sym)),
        List.Pairwise (fun a b => a.origin = b.origin → a.order ≠ b.order)
          (synthAll m rules groups ex).1 := by
  intro groups
  induction groups with
  | nil => intro _ ex; simp [synthAll]
  | cons gr rest ih =>
      intro hg ex
      obtain ⟨o, labels⟩ := gr
      simp only [synthAll]
      rw [List.pairwise_append]
      refine ⟨?_, ih (List.pairwise_cons.mp hg).2 _, ?_⟩
      · refine (synthLoop_pairwise_lt o m labels _ ex).imp ?_
        intro a b hlt _
        omega
      · intro a ha b hb hab
        have ha1 := (synthLoop_mem o m labels _ ex a ha).1
        obtain ⟨g', hg', ho'⟩ := (synthAll_mem m rules rest _ b hb).2.1
        have hne : o ≠ g'.1 := fun he => ((List.pairwise_cons.mp hg).1 g' hg' he).elim
        exact (hne ((ha1.symm.trans hab).trans ho')).elim

theorem groupAdd_keys (g : List (String × List String)) (o lab : String) :
    (groupAdd g o lab).map Prod.fst =
      if o ∈ g.map Prod.fst then g.map Prod.fst else g.map Prod.fst ++ [o] := by
  induction g with
  | nil => simp [groupAdd]
  | cons p rest ih =>
      obtain ⟨k, ls⟩ := p
      by_cases hk : k = o
      · subst hk
        simp [groupAdd]
      · simp only [groupAdd, if_neg hk, List.map_cons]
        rw [ih]
        by_cases ho : o ∈ rest.map Prod.fst
        · simp [ho, hk, Ne.symm hk]
        · simp [ho, hk, Ne.symm hk]

theorem groupAdd_keys_nodup (g : List (String × List String)) (o lab : String)
    (h : (g.map Prod.fst).Nodup) : ((groupAdd g o lab).map Prod.fst).Nodup := by
  rw [groupAdd_keys]
  by_cases ho : o ∈ g.map Prod.fst
  · rwa [if_pos ho]
  · rw [if_neg ho]
    simp [List.nodup_append, h, ho]

theorem groupLabels_keys_nodup :
    ∀ (rules : List Rule) (g : List (String × List String)),
      (g.map Prod.fst).Nodup → ((groupLabels rules g).map Prod.fst).Nodup := by
  intro rules
  induction rules with
  | nil => intro g h; simpa [groupLabels] using h
  | cons r rest ih =>
      intro g h
      exact ih _ (groupAdd_keys_nodup g r.origin r.label h)

/-- Claim C4: after one augmentation run on a duplicate-free rule set,
every synthesized rule's order exceeds every pre-existing order of the
same origin, synthesized rules of one origin have pairwise distinct
orders, and the resulting rule list has no two rules with the same
`(origin, expansion)` key. -/
theorem augment_orders_and_dedup (lexC : LexState) (rules : List Rule)
    (g : Grammar)
    (h : List.Pairwise (fun a b => Rule.key a ≠ Rule.key b) rules) :
    (∀ r ∈ (augment_grammar_for_template_mode lexC rules g).rules.drop rules.length,
      ∀ r0 ∈ rules, r0.origin = r.origin → r0.order < r.order) ∧
    List.Pairwise (fun a b => a.origin = b.origin → a.order ≠ b.order)
      ((augment_grammar_for_template_mode lexC rules g).rules.drop rules.length) ∧
    List.Pairwise (fun a b => Rule.key a ≠ Rule.key b)
      (augment_grammar_for_template_mode lexC rules g).rules := by
  have hdrop :
      (augment_grammar_for_template_mode lexC rules g).rules.drop rules.length =
        (synthAll (addLabelTerms (addPyobjTerminals lexC g, [])
            (groupLabels rules [])).2 rules
          (groupLabels rules []) (rules.map Rule.key)).1 := by
    simp only [augment_grammar_for_template_mode]
    exact List.drop_left rules _
  refine ⟨?_, ?_, ?_⟩
  · rw [hdrop]
    intro r hr r0 hr0 ho
    exact (synthAll_mem _ rules _ _ r hr).2.2 r0 hr0 ho
  · rw [hdrop]
    refine synthAll_pairwise_order _ rules _ ?_ _
    exact List.pairwise_map.mp (groupLabels_keys_nodup rules [] (by simp))
  · simp only [augment_grammar_for_template_mode]
    rw [List.pairwise_append]
    refine ⟨h, synthAll_keys_pairwise _ rules _ _, ?_⟩
    intro a ha b hb hkey
    have h1 := (synthAll_mem _ rules _ _ b hb).1
    exact h1 (hkey ▸ List.mem_map_of_mem Rule.key ha)

/-- Witness for `augment_orders_and_dedup` on a concrete three-rule
grammar with two expansions of one origin. -/
theorem augment_orders_and_dedup_witness :
    (∀ r ∈ (augment_grammar_for_template_mode ⟨[], []⟩
        [{origin := "s", expansion := [Sym.nt "e"], order := 0},
         {origin := "s", expansion := [Sym.term "A"], order := 1},
         {origin := "e", expansion := [Sym.term "N"], order := 0}] {}).rules.drop 3,
      ∀ r0 ∈ [{origin := "s", expansion := [Sym.nt "e"], order := 0},
         {origin := "s", expansion := [Sym.term "A"], order := 1},
         {origin := "e", expansion := [Sym.term "N"], order := 0}],
        Rule.origin r0 = r.origin → Rule.order r0 < r.order) ∧
    List.Pairwise (fun a b => a.origin = b.origin → a.order ≠ b.order)
      ((augment_grammar_for_template_mode ⟨[], []⟩
        [{origin := "s", expansion := [Sym.nt "e"], order := 0},
         {origin := "s", expansion := [Sym.term "A"], order := 1},
         {origin := "e", expansion := [Sym.term "N"], order := 0}] {}).rules.drop 3) ∧
    List.Pairwise (fun a b => Rule.key a ≠ Rule.key b)
      (augment_grammar_for_template_mode ⟨[], []⟩
        [{origin := "s", expansion := [Sym.nt "e"], order := 0},
         {origin := "s", expansion := [Sym.term "A"], order := 1},
         {origin := "e", expansion := [Sym.term "N"], order := 0}] {}).rules :=
  augment_orders_and_dedup ⟨[], []⟩
    [{origin := "s", expansion := [Sym.nt "e"], order := 0},
     {origin := "s", expansion := [Sym.term "A"], order := 1},
     {origin := "e", expansion := [Sym.term "N"], order := 0}] {} (by decide)

theorem lookup_append_left {β : Type} (n : String) (l1 l2 : List (String × β))
    (h : (List.lookup n l1).isSome) :
    List.lookup n (l1 ++ l2) = List.lookup n l1 := by
  induction l1 with
  | nil => simp [List.lookup] at h
  | cons p rest ih =>
      rw [List.cons_append, List.lookup, List.lookup]
      cases hk : n == p.1 with
      | true => rfl
      | false =>
          rw [List.lookup, hk] at h
          exact ih h

theorem addTerminal_id (st : LexState) (n : String) (p : Pattern)
    (h : (List.lookup n st.byName).isSome) : addTerminal st n p = st := by
  unfold addTerminal
  obtain ⟨t, ht⟩ := Option.isSome_iff_exists.mp h
  rw [ht]

theorem lookup_append_none {β : Type} (n : String) (l1 l2 : List (String × β))
    (h : List.lookup n l1 = none) :
    List.lookup n (l1 ++ l2) = List.lookup n l2 := by
  induction l1 with
  | nil => rfl
  | cons p rest ih =>
      rw [List.lookup] at h
      rw [List.cons_append, List.lookup]
      cases hk : n == p.1 with
      | true => rw [hk] at h; exact absurd h (by simp)
      | false =>
          rw [hk] at h
          exact ih h

theorem addTerminal_installs (st : LexState) (n : String) (p : Pattern) :
    (List.lookup n (addTerminal st n p).byName).isSome := by
  unfold addTerminal
  cases ht : List.lookup n st.byName with
  | some t => simp [ht]
  | none =>
      simp only []
      rw [lookup_append_none _ _ _ ht]
      simp [List.lookup]

theorem addTerminal_mono (st : LexState) (n n' : String) (p' : Pattern)
    (h : (List.lookup n st.byName).isSome) :
    (List.lookup n (addTerminal st n' p').byName).isSome := by
  unfold addTerminal
  cases ht : List.lookup n' st.byName with
  | some t => exact h
  | none =>
      simp only []
      rw [lookup_append_left _ _ _ h]
      exact h

/-- `groupAdd` is the identity when the `(origin, label)` pair is already
recorded. -/
theorem groupAdd_id (g : List (String × List String)) (o lab : String)
    (ls : List String) (hl : List.lookup o g = some ls) (hm : lab ∈ ls) :
    groupAdd g o lab = g := by
  induction g with
  | nil => simp [List.lookup] at hl
  | cons p rest ih =>
      obtain ⟨k, kls⟩ := p
      rw [List.lookup] at hl
      by_cases hk : k = o
      · subst hk
        simp only [beq_self_eq_true] at hl
        rw [groupAdd, if_pos rfl]
        cases hl
        rw [if_pos hm]
      · have hbk : (o == k) = false := by
          simp [Ne.symm hk]
        rw [hbk] at hl
        simp only [] at hl
        rw [groupAdd, if_neg hk, ih hl]

theorem groupAdd_lookup_added (g : List (String × List String)) (o lab : String) :
    ∃ ls, List.lookup o (groupAdd g o lab) = some ls ∧ lab ∈ ls := by
  induction g with
  | nil => exact ⟨[lab], by simp [groupAdd, List.lookup], by simp⟩
  | cons p rest ih =>
      obtain ⟨k, kls⟩ := p
      by_cases hk : k = o
      · subst hk
        rw [groupAdd, if_pos rfl]
        by_cases hm : lab ∈ kls
        · exact ⟨kls, by simp [List.lookup, hm], hm⟩
        · exact ⟨kls ++ [lab], by simp [List.lookup, hm], by simp⟩
      · obtain ⟨ls, h1, h2⟩ := ih
        refine ⟨ls, ?_, h2⟩
        rw [groupAdd, if_neg hk, List.lookup]
        have hbk : (o == k) = false := by simp [Ne.symm hk]
        rw [hbk]
        exact h1

theorem groupAdd_lookup_mono (g : List (String × List String)) (o' o lab : String)
    (ls : List String) (h : List.lookup o' g = some ls) :
    ∃ ls', List.lookup o' (groupAdd g o lab) = some ls' ∧ ∀ x ∈ ls, x ∈ ls' := by
  induction g with
  | nil => simp [List.lookup] at h
  | cons p rest ih =>
      obtain ⟨k, kls⟩ := p
      rw [List.lookup] at h
      by_cases hk : k = o
      · subst hk
        rw [groupAdd, if_pos rfl, List.lookup]
        cases hb : o' == k with
        | true =>
            rw [hb] at h
            cases h
            by_cases hm : lab ∈ ls
            · exact ⟨ls, by simp [hm], fun x hx => hx⟩
            · exact ⟨ls ++ [lab], by simp [hm], fun x hx => List.mem_append_left _ hx⟩
        | false =>
            rw [hb] at h
            exact ⟨ls, h, fun x hx => hx⟩
      · rw [groupAdd, if_neg hk, List.lookup]
        cases hb : o' == k with
        | true =>
            rw [hb] at h
            cases h
            exact ⟨ls, rfl, fun x hx => hx⟩
        | false =>
            rw [hb] at h
            exact ih h

theorem groupLabels_lookup_mono :
    ∀ (rs : List Rule) (g : List (String × List String)) (o : String)
      (ls : List String), List.lookup o g = some ls →
      ∃ ls', List.lookup o (groupLabels rs g) = some ls' ∧ ∀ x ∈ ls, x ∈ ls' := by
  intro rs
  induction rs with
  | nil => intro g o ls h; exact ⟨ls, h, fun x hx => hx⟩
  | cons r rest ih =>
      intro g o ls h
      obtain ⟨ls1, h1, h2⟩ := groupAdd_lookup_mono g o r.origin r.label ls h
      obtain ⟨ls2, h3, h4⟩ := ih _ o ls1 h1
      exact ⟨ls2, h3, fun x hx => h4 x (h2 x hx)⟩

/-- Grouping completeness: every rule's label appears in its origin's
label set. -/
theorem groupLabels_complete :
    ∀ (rs : List Rule) (g : List (String × List String)) (r : Rule), r ∈ rs →
      ∃ ls, List.lookup r.origin (groupLabels rs g) = some ls ∧ r.label ∈ ls := by
  intro rs
  induction rs with
  | nil => intro g r hr; simp at hr
  | cons q rest ih =>
      intro g r hr
      rcases List.mem_cons.mp hr with rfl | hr
      · obtain ⟨ls, h1, h2⟩ := groupAdd_lookup_added g r.origin r.label
        obtain ⟨ls', h3, h4⟩ := groupLabels_lookup_mono rest _ r.origin ls h1
        exact ⟨ls', h3, h4 _ h2⟩
      · exact ih _ r hr

theorem groupLabels_append (l1 l2 : List Rule) (g : List (String × List String)) :
    groupLabels (l1 ++ l2) g = groupLabels l2 (groupLabels l1 g) := by
  induction l1 generalizing g with
  | nil => rfl
  | cons r rest ih => rw [List.cons_append, groupLabels, ih, groupLabels]

/-- Every group key comes from the accumulator or from some rule's
origin. -/
theorem groupLabels_keys_sub :
    ∀ (rs : List Rule) (g : List (String × List String)) (k : String),
      k ∈ (groupLabels rs g).map Prod.fst →
      k ∈ g.map Prod.fst ∨ ∃ r ∈ rs, r.origin = k := by
  intro rs
  induction rs with
  | nil => intro g k h; exact Or.inl h
  | cons q rest ih =>
      intro g k h
      rcases ih _ k h with h1 | h1
      · rw [groupAdd_keys] at h1
        by_cases ho : q.origin ∈ g.map Prod.fst
        · rw [if_pos ho] at h1
          exact Or.inl h1
        · rw [if_neg ho] at h1
          rcases List.mem_append.mp h1 with h2 | h2
          · exact Or.inl h2
          · exact Or.inr ⟨q, List.mem_cons_self _ _, (List.mem_singleton.mp h2).symm⟩
      · obtain ⟨r, hr, hro⟩ := h1
        exact Or.inr ⟨r, List.mem_cons_of_mem _ hr, hro⟩

theorem synthLoop_alias (o : String) (m : List (String × String)) :
    ∀ (labels : List String) (ord : Int) (ex : List (String × List Sym)) (r : Rule),
      r ∈ (synthLoop o m labels ord ex).1 → r.«alias» = none := by
  intro labels
  induction labels with
  | nil => intro ord ex r hr; simp [synthLoop] at hr
  | cons label rest ih =>
      intro ord ex r hr
      simp only [synthLoop] at hr
      by_cases hmem : (o, [Sym.term ((List.lookup label m).getD "")]) ∈ ex
      · rw [if_pos hmem] at hr
        exact ih ord ex r hr
      · rw [if_neg hmem] at hr
        rcases List.mem_cons.mp hr with rfl | hr
        · rfl
        · exact ih (ord + 1) _ r hr

theorem synthAll_alias (m : List (String × String)) (rules : List Rule) :
    ∀ (groups : List (String × List String)) (ex : List (String × List Sym)) (r : Rule),
      r ∈ (synthAll m rules groups ex).1 → r.«alias» = none := by
  intro groups
  induction groups with
  | nil => intro ex r hr; simp [synthAll] at hr
  | cons gr rest ih =>
      intro ex r hr
      obtain ⟨o, labels⟩ := gr
      simp only [synthAll] at hr
      rcases List.mem_append.mp hr with hr | hr
      · exact synthLoop_alias o m labels _ ex r hr
      · exact ih _ r hr

theorem synthAll_snd (m : List (String × String)) (rules : List Rule) :
    ∀ (groups : List (String × List String)) (ex : List (String × List Sym)),
      (synthAll m rules groups ex).2 =
        ex ++ (synthAll m rules groups ex).1.map Rule.key := by
  intro groups
  induction groups with
  | nil => intro ex; simp [synthAll]
  | cons gr rest ih =>
      intro ex
      obtain ⟨o, labels⟩ := gr
      simp only [synthAll]
      rw [ih, synthLoop_snd, List.map_append, List.append_assoc]

theorem synthLoop_covers (o : String) (m : List (String × String)) :
    ∀ (labels : List String) (ord : Int) (ex : List (String × List Sym))
      (lab : String), lab ∈ labels →
      (o, [Sym.term ((List.lookup lab m).getD "")]) ∈ (synthLoop o m labels ord ex).2 := by
  intro labels
  induction labels with
  | nil => intro ord ex lab h; simp at h
  | cons label rest ih =>
      intro ord ex lab hl
      simp only [synthLoop]
      by_cases hmem : (o, [Sym.term ((List.lookup label m).getD "")]) ∈ ex
      · rw [if_pos hmem]
        rcases List.mem_cons.mp hl with rfl | hl
        · rw [synthLoop_snd]
          exact List.mem_append_left _ hmem
        · exact ih ord ex lab hl
      · rw [if_neg hmem]
        rcases List.mem_cons.mp hl with rfl | hl
        · rw [synthLoop_snd]
          exact List.mem_append_left _
            (List.mem_append_right _ (List.mem_singleton.mpr rfl))
        · exact ih (ord + 1) _ lab hl

theorem synthAll_covers (m : List (String × String)) (rules : List Rule) :
    ∀ (groups : List (String × List String)) (ex : List (String × List Sym))
      (gr : String × List String) (lab : String), gr ∈ groups → lab ∈ gr.2 →
      (gr.1, [Sym.term ((List.lookup lab m).getD "")]) ∈ (synthAll m rules groups ex).2 := by
  intro groups
  induction groups with
  | nil => intro ex gr lab h; simp at h
  | cons gr0 rest ih =>
      intro ex gr lab hgr hlab
      obtain ⟨o, labels⟩ := gr0
      simp only [synthAll]
      rcases List.mem_cons.mp hgr with rfl | hgr
      · rw [synthAll_snd]
        exact List.mem_append_left _ (synthLoop_covers o m labels _ ex lab hlab)
      · exact ih _ gr lab hgr hlab

theorem synthLoop_nil_of_covered (o : String) (m : List (String × String)) :
    ∀ (labels : List String) (ord : Int) (ex : List (String × List Sym)),
      (∀ lab ∈ labels, (o, [Sym.term ((List.lookup lab m).getD "")]) ∈ ex) →
      synthLoop o m labels ord ex = ([], ex) := by
  intro labels
  induction labels with
  | nil => intro ord ex _; rfl
  | cons label rest ih =>
      intro ord ex h
      simp only [synthLoop]
      rw [if_pos (h label (List.mem_cons_self _ _))]
      exact ih ord ex fun lab hl => h lab (List.mem_cons_of_mem _ hl)

theorem synthAll_nil_of_covered (m : List (String × String)) (rules : List Rule) :
    ∀ (groups : List (String × List String)) (ex : List (String × List Sym)),
      (∀ gr ∈ groups, ∀ lab ∈ gr.2,
        (gr.1, [Sym.term ((List.lookup lab m).getD "")]) ∈ ex) →
      synthAll m rules groups ex = ([], ex) := by
  intro groups
  induction groups with
  | nil => intro ex _; rfl
  | cons gr0 rest ih =>
      intro ex h
      obtain ⟨o, labels⟩ := gr0
      simp only [synthAll]
      rw [synthLoop_nil_of_covered o m labels _ ex
        (fun lab hl => h (o, labels) (List.mem_cons_self _ _) lab hl)]
      simp [ih ex (fun gr hgr lab hl => h gr (List.mem_cons_of_mem _ hgr) lab hl)]

theorem mem_lookup_of_nodup_keys (g : List (String × List String))
    (gr : String × List String) (hnd : (g.map Prod.fst).Nodup) (hm : gr ∈ g) :
    List.lookup gr.1 g = some gr.2 := by
  induction g with
  | nil => simp at hm
  | cons p rest ih =>
      rw [List.map_cons, List.nodup_cons] at hnd
      rcases List.mem_cons.mp hm with rfl | hm
      · simp [List.lookup]
      · rw [List.lookup]
        cases hb : gr.1 == p.1 with
        | true =>
            exact absurd (List.mem_map_of_mem Prod.fst hm)
              (by simpa [eq_of_beq hb] using hnd.1)
        | false => exact ih hnd.2 hm

/-- The map component of one label-fold does not depend on the
lexer-state component. -/
theorem foldl_labels_map_indep :
    ∀ (labels : List String) (st st' : LexState) (m : List (String × String)),
      (labels.foldl addLabelTerm (st, m)).2 = (labels.foldl addLabelTerm (st', m)).2 := by
  intro labels
  induction labels with
  | nil => intro st st' m; rfl
  | cons lab rest ih =>
      intro st st' m
      simp only [List.foldl_cons, addLabelTerm]
      exact ih _ _ _

/-- The map component of the group-fold is determined by the map
component of its starting pair. -/
theorem foldl_groups_map_congr :
    ∀ (groups : List (String × List String)) (p q : LexState × List (String × String)),
      p.2 = q.2 →
      (groups.foldl (fun a b => b.2.foldl addLabelTerm a) p).2 =
      (groups.foldl (fun a b => b.2.foldl addLabelTerm a) q).2 := by
  intro groups
  induction groups with
  | nil => intro p q h; exact h
  | cons gr rest ih =>
      intro p q h
      simp only [List.foldl_cons]
      refine ih _ _ ?_
      obtain ⟨p1, p2⟩ := p
      obtain ⟨q1, q2⟩ := q
      cases h
      exact foldl_labels_map_indep gr.2 p1 q1 p2

/-- The map component of the terminal-synthesis loop does not depend on
the lexer-state component. -/
theorem addLabelTerms_map_indep
    (groups : List (String × List String)) (st st' : LexState)
    (m : List (String × String)) :
    (addLabelTerms (st, m) groups).2 = (addLabelTerms (st', m) groups).2 := by
  simp only [addLabelTerms]
  exact foldl_groups_map_congr groups (st, m) (st', m) rfl

theorem labelsFold_lex_mono :
    ∀ (labels : List String) (p : LexState × List (String × String)) (n : String),
      (List.lookup n p.1.byName).isSome →
      (List.lookup n ((labels.foldl addLabelTerm p).1).byName).isSome := by
  intro labels
  induction labels with
  | nil => intro p n h; exact h
  | cons lab rest ih =>
      intro p n h
      simp only [List.foldl_cons]
      exact ih _ n (addTerminal_mono p.1 n _ _ h)

theorem addLabelTerms_lex_mono :
    ∀ (groups : List (String × List String)) (p : LexState × List (String × String))
      (n : String), (List.lookup n p.1.byName).isSome →
      (List.lookup n ((addLabelTerms p groups).1).byName).isSome := by
  intro groups
  induction groups with
  | nil => intro p n h; exact h
  | cons gr rest ih =>
      intro p n h
      simp only [addLabelTerms, List.foldl_cons]
      exact ih _ n (labelsFold_lex_mono gr.2 p n h)

theorem labelsFold_installs :
    ∀ (labels : List String) (p : LexState × List (String × String)) (lab : String),
      lab ∈ labels →
      (List.lookup (treeTermName lab) ((labels.foldl addLabelTerm p).1).byName).isSome := by
  intro labels
  induction labels with
  | nil => intro p lab h; simp at h
  | cons l0 rest ih =>
      intro p lab hl
      simp only [List.foldl_cons]
      rcases List.mem_cons.mp hl with rfl | hl
      · exact labelsFold_lex_mono rest _ _ (addTerminal_installs p.1 _ _)
      · exact ih _ lab hl

theorem addLabelTerms_installs :
    ∀ (groups : List (String × List String)) (p : LexState × List (String × String))
      (gr : String × List String) (lab : String), gr ∈ groups → lab ∈ gr.2 →
      (List.lookup (treeTermName lab) ((addLabelTerms p groups).1).byName).isSome := by
  intro groups
  induction groups with
  | nil => intro p gr lab h; simp at h
  | cons gr0 rest ih =>
      intro p gr lab hgr hlab
      simp only [addLabelTerms, List.foldl_cons]
      rcases List.mem_cons.mp hgr with rfl | hgr
      · exact addLabelTerms_lex_mono rest _ _ (labelsFold_installs gr.2 p lab hlab)
      · exact ih _ gr lab hgr hlab

theorem labelsFold_lex_id :
    ∀ (labels : List String) (st : LexState) (m : List (String × String)),
      (∀ lab ∈ labels, (List.lookup (treeTermName lab) st.byName).isSome) →
      (labels.foldl addLabelTerm (st, m)).1 = st := by
  intro labels
  induction labels with
  | nil => intro st m _; rfl
  | cons lab rest ih =>
      intro st m h
      simp only [List.foldl_cons, addLabelTerm]
      rw [addTerminal_id st _ _ (h lab (List.mem_cons_self _ _))]
      exact ih st _ fun l hl => h l (List.mem_cons_of_mem _ hl)

theorem addLabelTerms_lex_id :
    ∀ (groups : List (String × List String)) (st : LexState) (m : List (String × String)),
      (∀ gr ∈ groups, ∀ lab ∈ gr.2,
        (List.lookup (treeTermName lab) st.byName).isSome) →
      (addLabelTerms (st, m) groups).1 = st := by
  intro groups
  induction groups with
  | nil => intro st m _; rfl
  | cons gr rest ih =>
      intro st m h
      simp only [addLabelTerms, List.foldl_cons]
      rcases hfold : gr.2.foldl addLabelTerm (st, m) with ⟨a, b⟩
      have h1 : a = st := by
        have h0 := labelsFold_lex_id gr.2 st m
          fun lab hl => h gr (List.mem_cons_self _ _) lab hl
        rw [hfold] at h0
        exact h0
      subst h1
      exact ih a b fun g hg lab hl => h g (List.mem_cons_of_mem _ hg) lab hl

theorem pyobjFold_mono :
    ∀ (l : List (String × String)) (st : LexState) (n : String),
      (List.lookup n st.byName).isSome →
      (List.lookup n ((l.foldl (fun s p =>
        addTerminal s p.1 (Pattern.placeholder (some p.2))) st)).byName).isSome := by
  intro l
  induction l with
  | nil => intro st n h; exact h
  | cons q rest ih =>
      intro st n h
      simp only [List.foldl_cons]
      exact ih _ n (addTerminal_mono st n _ _ h)

theorem pyobjFold_installs_each :
    ∀ (l : List (String × String)) (st : LexState) (q : String × String), q ∈ l →
      (List.lookup q.1 ((l.foldl (fun s p =>
        addTerminal s p.1 (Pattern.placeholder (some p.2))) st)).byName).isSome := by
  intro l
  induction l with
  | nil => intro st q h; simp at h
  | cons q0 rest ih =>
      intro st q hq
      simp only [List.foldl_cons]
      rcases List.mem_cons.mp hq with rfl | hq
      · exact pyobjFold_mono rest _ _ (addTerminal_installs st _ _)
      · exact ih _ q hq

theorem pyobjFold_id :
    ∀ (l : List (String × String)) (st : LexState),
      (∀ q ∈ l, (List.lookup q.1 st.byName).isSome) →
      l.foldl (fun s p => addTerminal s p.1 (Pattern.placeholder (some p.2))) st = st := by
  intro l
  induction l with
  | nil => intro st _; rfl
  | cons q rest ih =>
      intro st h
      simp only [List.foldl_cons]
      rw [addTerminal_id st _ _ (h q (List.mem_cons_self _ _))]
      exact ih st fun q' hq' => h q' (List.mem_cons_of_mem _ hq')

/-- `groupLabels` over an already-recorded rule list is the identity. -/
theorem groupLabels_id :
    ∀ (rs : List Rule) (G : List (String × List String)),
      (∀ r ∈ rs, ∃ ls, List.lookup r.origin G = some ls ∧ Rule.label r ∈ ls) →
      groupLabels rs G = G := by
  intro rs
  induction rs with
  | nil => intro G _; rfl
  | cons r rest ih =>
      intro G h
      obtain ⟨ls, h1, h2⟩ := h r (List.mem_cons_self _ _)
      rw [groupLabels, groupAdd_id G r.origin r.label ls h1 h2]
      exact ih G fun r' hr' => h r' (List.mem_cons_of_mem _ hr')

theorem augmentResult_ext (x y : AugmentResult) (h1 : x.lex = y.lex)
    (h2 : x.rules = y.rules) (h3 : x.map = y.map) : x = y := by
  cases x
  cases y
  cases h1
  cases h2
  cases h3
  rfl

/-- Claim C9 (counterexample): on a grammar whose only rule for origin
`x` carries the alias `a`, the first augmentation synthesizes an
alias-free rule `x -> TREE__A`, which makes the second run see the new
label `x` and add the terminal `TREE__X`, a new rule and a changed map:
the rule list grows from 2 to 3, the terminal list from 1 to 2. -/
theorem augment_not_idempotent :
    ((augment_grammar_for_template_mode
        (augment_grammar_for_template_mode ⟨[], []⟩
          [{origin := "x", expansion := [Sym.nt "y"], order := 0,
            «alias» := some "a"}] {}).lex
        (augment_grammar_for_template_mode ⟨[], []⟩
          [{origin := "x", expansion := [Sym.nt "y"], order := 0,
            «alias» := some "a"}] {}).rules {}).rules.length = 3 ∧
      (augment_grammar_for_template_mode ⟨[], []⟩
        [{origin := "x", expansion := [Sym.nt "y"], order := 0,
          «alias» := some "a"}] {}).rules.length = 2) ∧
    ((augment_grammar_for_template_mode
        (augment_grammar_for_template_mode ⟨[], []⟩
          [{origin := "x", expansion := [Sym.nt "y"], order := 0,
            «alias» := some "a"}] {}).lex
        (augment_grammar_for_template_mode ⟨[], []⟩
          [{origin := "x", expansion := [Sym.nt "y"], order := 0,
            «alias» := some "a"}] {}).rules {}).lex.terminals.length = 2 ∧
      (augment_grammar_for_template_mode ⟨[], []⟩
        [{origin := "x", expansion := [Sym.nt "y"], order := 0,
          «alias» := some "a"}] {}).lex.terminals.length = 1) ∧
    (augment_grammar_for_template_mode
        (augment_grammar_for_template_mode ⟨[], []⟩
          [{origin := "x", expansion := [Sym.nt "y"], order := 0,
            «alias» := some "a"}] {}).lex
        (augment_grammar_for_template_mode ⟨[], []⟩
          [{origin := "x", expansion := [Sym.nt "y"], order := 0,
            «alias» := some "a"}] {}).rules {}).map ≠
      (augment_grammar_for_template_mode ⟨[], []⟩
        [{origin := "x", expansion := [Sym.nt "y"], order := 0,
          «alias» := some "a"}] {}).map := by
  exact ⟨⟨rfl, rfl⟩, ⟨rfl, rfl⟩, by decide⟩

/-- Claim C9 (amended): a second augmentation run adds no terminal, adds
no rule and returns the same label-to-terminal map — in fact it is the
identity on the whole configuration — provided every origin already
produces its own name as a label (some rule of that origin has no alias),
because the first run's synthesized rules are alias-free and then
introduce no new label. -/
theorem augment_idempotent_of_alias_coverage (lexC : LexState)
    (rules : List Rule) (g : Grammar)
    (H : ∀ r ∈ rules, ∃ r', r' ∈ rules ∧ r'.origin = r.origin ∧
      Rule.label r' = r'.origin) :
    augment_grammar_for_template_mode
      (augment_grammar_for_template_mode lexC rules g).lex
      (augment_grammar_for_template_mode lexC rules g).rules g =
    augment_grammar_for_template_mode lexC rules g := by
  have hrules1 : (augment_grammar_for_template_mode lexC rules g).rules =
      rules ++ (synthAll (augment_grammar_for_template_mode lexC rules g).map
        rules (groupLabels rules []) (rules.map Rule.key)).1 := rfl
  have hS1cont : ∀ r ∈ (synthAll
        (augment_grammar_for_template_mode lexC rules g).map rules
        (groupLabels rules []) (rules.map Rule.key)).1,
      ∃ ls, List.lookup r.origin (groupLabels rules []) = some ls ∧
        Rule.label r ∈ ls := by
    intro r hr
    have halias := synthAll_alias _ rules (groupLabels rules []) _ r hr
    have hlabel : Rule.label r = r.origin := by
      rw [Rule.label, halias]
    obtain ⟨gr, hgr, ho⟩ := (synthAll_mem _ rules (groupLabels rules []) _ r hr).2.1
    have hnd := groupLabels_keys_nodup rules [] (by simp)
    have hlk : List.lookup gr.1 (groupLabels rules []) = some gr.2 :=
      mem_lookup_of_nodup_keys _ gr hnd hgr
    rcases groupLabels_keys_sub rules [] gr.1
        (List.mem_map_of_mem Prod.fst hgr) with h0 | h0
    · simp at h0
    obtain ⟨r0, hr0, hro⟩ := h0
    obtain ⟨r', hr', ho', hl'⟩ := H r0 hr0
    obtain ⟨ls, hls, hmem⟩ := groupLabels_complete rules [] r' hr'
    rw [ho', hro, hlk] at hls
    cases hls
    refine ⟨gr.2, by rw [ho]; exact hlk, ?_⟩
    rw [hlabel, ho]
    rw [hl', ho', hro] at hmem
    exact hmem
  have hG2 : groupLabels (augment_grammar_for_template_mode lexC rules g).rules [] =
      groupLabels rules [] := by
    rw [hrules1, groupLabels_append]
    exact groupLabels_id _ _ hS1cont
  have hP1 : ∀ gr ∈ groupLabels rules [], ∀ lab ∈ gr.2,
      (List.lookup (treeTermName lab)
        (augment_grammar_for_template_mode lexC rules g).lex.byName).isSome := by
    intro gr hgr lab hlab
    exact addLabelTerms_installs (groupLabels rules [])
      (addPyobjTerminals lexC g, []) gr lab hgr hlab
  have hsty : addPyobjTerminals
      (augment_grammar_for_template_mode lexC rules g).lex g =
      (augment_grammar_for_template_mode lexC rules g).lex := by
    unfold addPyobjTerminals
    by_cases huse : g.usesPyobjPlaceholders
    · rw [if_pos huse]
      have hpy : (List.lookup "PYOBJ"
          (augment_grammar_for_template_mode lexC rules g).lex.byName).isSome := by
        refine addLabelTerms_lex_mono (groupLabels rules [])
          (addPyobjTerminals lexC g, []) "PYOBJ" ?_
        unfold addPyobjTerminals
        rw [if_pos huse]
        exact pyobjFold_mono _ _ _ (addTerminal_installs lexC _ _)
      have htyped : ∀ q ∈ g.pyobjTypeNames, (List.lookup q.1
          (augment_grammar_for_template_mode lexC rules g).lex.byName).isSome := by
        intro q hq
        refine addLabelTerms_lex_mono (groupLabels rules [])
          (addPyobjTerminals lexC g, []) q.1 ?_
        unfold addPyobjTerminals
        rw [if_pos huse]
        exact pyobjFold_installs_each _ _ q hq
      rw [addTerminal_id _ _ _ hpy]
      exact pyobjFold_id _ _ htyped
    · rw [if_neg huse]
  refine augmentResult_ext _ _ ?_ ?_ ?_
  · show (addLabelTerms (addPyobjTerminals
        (augment_grammar_for_template_mode lexC rules g).lex g, [])
        (groupLabels (augment_grammar_for_template_mode lexC rules g).rules [])).1 =
      (augment_grammar_for_template_mode lexC rules g).lex
    rw [hG2, hsty]
    exact addLabelTerms_lex_id _ _ [] hP1
  · show (augment_grammar_for_template_mode lexC rules g).rules ++
        (synthAll (addLabelTerms (addPyobjTerminals
            (augment_grammar_for_template_mode lexC rules g).lex g, [])
          (groupLabels (augment_grammar_for_template_mode lexC rules g).rules [])).2
          (augment_grammar_for_template_mode lexC rules g).rules
          (groupLabels (augment_grammar_for_template_mode lexC rules g).rules [])
          ((augment_grammar_for_template_mode lexC rules g).rules.map Rule.key)).1 =
      (augment_grammar_for_template_mode lexC rules g).rules
    rw [hG2]
    have hm' : (addLabelTerms (addPyobjTerminals
        (augment_grammar_for_template_mode lexC rules g).lex g, [])
        (groupLabels rules [])).2 =
        (augment_grammar_for_template_mode lexC rules g).map :=
      addLabelTerms_map_indep _ _ _ []
    rw [hm']
    have hcov : ∀ gr ∈ groupLabels rules [], ∀ lab ∈ gr.2,
        (gr.1, [Sym.term ((List.lookup lab
          (augment_grammar_for_template_mode lexC rules g).map).getD "")]) ∈
        (augment_grammar_for_template_mode lexC rules g).rules.map Rule.key := by
      intro gr hgr lab hlab
      rw [hrules1, List.map_append,
        ← synthAll_snd (augment_grammar_for_template_mode lexC rules g).map
          rules (groupLabels rules []) (rules.map Rule.key)]
      exact synthAll_covers _ rules _ _ gr lab hgr hlab
    rw [synthAll_nil_of_covered _ _ _ _ hcov]
    simp
  · show (addLabelTerms (addPyobjTerminals
        (augment_grammar_for_template_mode lexC rules g).lex g, [])
        (groupLabels (augment_grammar_for_template_mode lexC rules g).rules [])).2 =
      (augment_grammar_for_template_mode lexC rules g).map
    rw [hG2]
    exact addLabelTerms_map_indep _ _ _ []

/-- Witness for `augment_idempotent_of_alias_coverage` on a concrete
alias-free grammar. -/
theorem augment_idempotent_of_alias_coverage_witness :
    augment_grammar_for_template_mode
      (augment_grammar_for_template_mode ⟨[], []⟩
        [{origin := "start", expansion := [Sym.nt "expr"], order := 0},
         {origin := "expr", expansion := [Sym.term "N"], order := 0}] {}).lex
      (augment_grammar_for_template_mode ⟨[], []⟩
        [{origin := "start", expansion := [Sym.nt "expr"], order := 0},
         {origin := "expr", expansion := [Sym.term "N"], order := 0}] {}).rules {} =
    augment_grammar_for_template_mode ⟨[], []⟩
      [{origin := "start", expansion := [Sym.nt "expr"], order := 0},
       {origin := "expr", expansion := [Sym.term "N"], order := 0}] {} :=
  augment_idempotent_of_alias_coverage ⟨[], []⟩
    [{origin := "start", expansion := [Sym.nt "expr"], order := 0},
     {origin := "expr", expansion := [Sym.term "N"], order := 0}] {}
    (by
      intro r hr
      exact ⟨r, hr, rfl, by
        rcases List.mem_cons.mp hr with rfl | hr2
        · rfl
        · rcases List.mem_singleton.mp hr2 with rfl
          rfl⟩)

/-- Witness for `verify_start_behavior` at concrete inputs. -/
theorem verify_start_behavior_witness :
    ParsingFrontend_verify_start ["start"] none = .ok "start" ∧
    ParsingFrontend_verify_start ["a", "b"] none =
      .error (.configurationError
        "Lark initialized with more than 1 possible start rule. Must specify which start rule to parse") ∧
    ParsingFrontend_verify_start ["start"] (some "expr") =
      .error (.configurationError ("Unknown start rule " ++ "expr")) ∧
    TemplateEarleyFrontend_verify_start ["start"] ["start", "expr"] (some "expr") =
      .ok "expr" ∧
    TemplateEarleyFrontend_verify_start ["start"] ["start", "expr"] (some "zzz") =
      .error (.configurationError ("Unknown start rule " ++ "zzz")) := by
  have h1 := (verify_start_behavior ["start"] ["start", "expr"] "expr").1.1 "start" rfl
  have h2 := (verify_start_behavior ["a", "b"] [] "x").1.2.1 (by decide)
  have h3 := (verify_start_behavior ["start"] [] "expr").1.2.2 (by decide)
  have h4 := (verify_start_behavior ["start"] ["start", "expr"] "expr").2.2.2.2 (by decide)
  have h5 := (verify_start_behavior ["start"] ["start", "expr"] "zzz").2.2.2.1 (by decide)
  exact ⟨h1, h2, h3, h4, h5⟩

end TLark
